import Mathlib

/-!
# AgentConfigurationListener (rtbkit/core/agent_configuration/agent_configuration_listener.cc)

A shallow embedding of the agent configuration listener: the snapshot type
`AllAgentConfig`, the update applier `onMessage` and the three readers
`forEachAgent`, `forEachAccountAgent` and `getAgentEntry`.

Modelling conventions.

* `std::vector` is a `List`; positions are natural numbers.  The source stores
  positions in `int`; the model assumes a snapshot never holds 2^31 entries or
  more, so that `int i = newConfig->size() - 1` is the exact value.
* `std::unordered_map` is an association list with unique keys, kept in order
  of first insertion.  The source only uses `find`, `operator[]` and `end()` on
  its maps and never iterates over them, so the order is not observable.
* `std::shared_ptr<AgentConfig>` is an `Option AgentConfig`, `none` being the
  null pointer.  Dereferencing a null pointer is reported as the failure
  `Failure.nullDereference`.
* The JSON parser (`Json::parse` followed by `AgentConfig::createFromJson`) is
  outside the file and is a parameter `parse`.
* A C++ exception leaving a call is the `raised` field of an `Outcome`; the
  `state` field is the listener as it is when the call is left.
-/

namespace RTBKIT

/-! ## Data model -/

/-- Account key: an ordered list of strings, compared element-wise. -/
abbrev AccountKey := List String

/-- The fields of `AgentConfig` the listener reads, and the rest of the decoded
configuration collected in `body`, which the listener never inspects. -/
structure AgentConfig where
  account : AccountKey
  initialBudgetAccount : AccountKey
  profitAccount : AccountKey
  body : String
deriving DecidableEq, Repr

/-- An agent entry: `name` and the shared pointer `config` (`none` is null).  The
default-constructed entry `AgentConfigEntry()` has an empty name and a null
config. -/
structure AgentConfigEntry where
  name : String := ""
  config : Option AgentConfig := none
deriving DecidableEq, Repr

/-- The snapshot: the vector of entries (the base class of `AllAgentConfig`) and
the four index maps. -/
structure AllAgentConfig where
  entries : List AgentConfigEntry := []
  agentIndex : List (String × Nat) := []
  accountIndex : List (AccountKey × List Nat) := []
  initialAccountIndex : List (AccountKey × List Nat) := []
  profitAccountIndex : List (AccountKey × List Nat) := []
deriving DecidableEq, Repr

/-- What can leave a call as an exception (or, for a null dereference, as a
crash). -/
inductive Failure where
  | outOfRange
  | parseFailure (what : String)
  | nullDereference
  | cmpXchgFailed
deriving DecidableEq, Repr

/-- The listener object: the current snapshot pointer `allAgents` (`none` is
null), the snapshots handed to `allAgentsGc.defer` for deletion, whether the
callback `onConfigChange` is set, and the calls made to it so far. -/
structure AgentConfigurationListener where
  allAgents : Option AllAgentConfig
  allAgentsGc : List AllAgentConfig := []
  onConfigChange : Bool := false
  configChanges : List (String × Option AgentConfig) := []
deriving DecidableEq, Repr

/-- How a call of `onMessage` ends: the exception that left it, if any, and the
listener at that moment. -/
structure Outcome where
  raised : Option Failure
  state : AgentConfigurationListener
deriving DecidableEq, Repr

/-! ## Maps -/

section Maps
variable {K V : Type} [DecidableEq K]

/-- The `find` of a map: the value stored under `k`, `none` standing for
`end()`. -/
def mapFind : List (K × V) → K → Option V
  | [], _ => none
  | (k', v) :: rest, k => if k' = k then some v else mapFind rest k

/-- The assignment `m[k] = v`. -/
def mapAssign : List (K × V) → K → V → List (K × V)
  | [], k, v => [(k, v)]
  | (k', v') :: rest, k, v =>
    if k' = k then (k', v) :: rest else (k', v') :: mapAssign rest k v

/-- The statement `m[k].push_back(i)`: a missing key is first inserted with an
empty vector. -/
def mapPushBack : List (K × List Nat) → K → Nat → List (K × List Nat)
  | [], k, i => [(k, [i])]
  | (k', l) :: rest, k, i =>
    if k' = k then (k', l ++ [i]) :: rest else (k', l) :: mapPushBack rest k i

end Maps

/-! ## onMessage -/

/-- The bounds-checked access `v.at(i)`. -/
def vectorAt {α : Type} (v : List α) (i : Nat) : Except Failure α :=
  match v[i]? with
  | some x => .ok x
  | none => .error .outOfRange

/-- One `emplace_back(ce)` followed by the index update (lines 125-134 in the
loop, 142-151 after it).  `key` is the string used for `agentIndex`: `c.name`
in the loop, `agent` after it.  `conf` is `newConfig->back().config`, that is
the config of the entry just appended. -/
def emplaceAndIndex (newConfig : AllAgentConfig) (ce : AgentConfigEntry) (key : String) :
    Except Failure AllAgentConfig :=
  let entries := newConfig.entries ++ [ce]
  let i := entries.length - 1
  match ce.config with
  | none => .error .nullDereference
  | some conf =>
    .ok { entries := entries
          agentIndex := mapAssign newConfig.agentIndex key i
          accountIndex := mapPushBack newConfig.accountIndex conf.account i
          initialAccountIndex :=
            if conf.initialBudgetAccount ≠ [] then
              mapPushBack newConfig.initialAccountIndex conf.initialBudgetAccount i
            else newConfig.initialAccountIndex
          profitAccountIndex :=
            if conf.profitAccount ≠ [] then
              mapPushBack newConfig.profitAccountIndex conf.profitAccount i
            else newConfig.profitAccountIndex }

/-- The loop `for (auto & c: *ac)` of lines 113-135 over the entries still to
visit, carrying `newConfig` and `found`. -/
def copyLoop (agent : String) (config : Option AgentConfig) :
    List AgentConfigEntry → AllAgentConfig → Bool → Except Failure (AllAgentConfig × Bool)
  | [], newConfig, found => .ok (newConfig, found)
  | c :: rest, newConfig, found =>
    if c.name = agent then
      match config with
      | some cfg =>
        match emplaceAndIndex newConfig { c with config := some cfg } c.name with
        | .ok newConfig1 => copyLoop agent config rest newConfig1 true
        | .error e => .error e
      | none => copyLoop agent config rest newConfig true
    else
      match emplaceAndIndex newConfig c c.name with
      | .ok newConfig1 => copyLoop agent config rest newConfig1 found
      | .error e => .error e

/-- Lines 111-152: the snapshot built from the old snapshot `ac` and the delta
`(agent, config)`. -/
def buildNewConfig (ac : AllAgentConfig) (agent : String) (config : Option AgentConfig) :
    Except Failure AllAgentConfig :=
  match copyLoop agent config ac.entries {} false with
  | .error e => .error e
  | .ok (newConfig, found) =>
    if !found && config.isSome then
      emplaceAndIndex newConfig { name := agent, config := config } agent
    else .ok newConfig

/-- Lines 98-103: the config carried by the payload, null for an empty
payload. -/
def decodeConfig (parse : String → Except String AgentConfig) (configStr : String) :
    Except Failure (Option AgentConfig) :=
  if configStr = "" then .ok none
  else
    match parse configStr with
    | .ok cfg => .ok (some cfg)
    | .error what => .error (.parseFailure what)

/-- The method `onMessage`.  `competing` is `some p` when another writer has
replaced the current pointer by `p` between the read of line 108 and the
compare-and-exchange of line 154, and `none` when there is no such writer.
After a successful exchange the current pointer is the freshly allocated
snapshot, so the assertion of line 156 holds and is not represented; the old
snapshot `ac` is not null at that point and is handed to `allAgentsGc.defer`. -/
def onMessage (parse : String → Except String AgentConfig)
    (competing : Option (Option AllAgentConfig))
    (self : AgentConfigurationListener) (message : List String) : Outcome :=
  match vectorAt message 0 with
  | .error e => ⟨some e, self⟩
  | .ok topic =>
    if topic ≠ "CONFIG" then ⟨none, self⟩
    else
      match vectorAt message 1 with
      | .error e => ⟨some e, self⟩
      | .ok agent =>
        match vectorAt message 2 with
        | .error e => ⟨some e, self⟩
        | .ok configStr =>
          match decodeConfig parse configStr with
          | .error e => ⟨some e, self⟩
          | .ok config =>
            match self.allAgents with
            | none => ⟨some .nullDereference, self⟩
            | some ac =>
              match buildNewConfig ac agent config with
              | .error e => ⟨some e, self⟩
              | .ok newConfig =>
                match competing with
                | some other => ⟨some .cmpXchgFailed, { self with allAgents := other }⟩
                | none =>
                  let installed : AgentConfigurationListener :=
                    { self with allAgents := some newConfig
                                allAgentsGc := self.allAgentsGc ++ [ac] }
                  if self.onConfigChange then
                    ⟨none, { installed with
                              configChanges := installed.configChanges ++ [(agent, config)] }⟩
                  else ⟨none, installed⟩

/-- The messages of a list applied one after another by a single writer,
stopping at the first exception. -/
def applyAll (parse : String → Except String AgentConfig) :
    AgentConfigurationListener → List (List String) → Outcome
  | self, [] => ⟨none, self⟩
  | self, message :: rest =>
    match onMessage parse none self message with
    | ⟨none, self1⟩ => applyAll parse self1 rest
    | ⟨some e, self1⟩ => ⟨some e, self1⟩

/-! ## Readers -/

/-- The method `forEachAgent`: the entries handed to the visitor, in order. -/
def forEachAgent (self : AgentConfigurationListener) : List AgentConfigEntry :=
  match self.allAgents with
  | none => []
  | some ac => ac.entries

/-- The loop of lines 64-66: `onAgent(ac->at(*jt))` for each stored position. -/
def visitPositions (ac : AllAgentConfig) : List Nat → Except Failure (List AgentConfigEntry)
  | [] => .ok []
  | j :: rest =>
    match vectorAt ac.entries j with
    | .error e => .error e
    | .ok ae =>
      match visitPositions ac rest with
      | .error e => .error e
      | .ok visited => .ok (ae :: visited)

/-- Lines 53-62: the list of positions found for `account`, the three indexes
being tried in turn; `none` when no index has the key. -/
def findAccount (ac : AllAgentConfig) (account : AccountKey) : Option (List Nat) :=
  match mapFind ac.accountIndex account with
  | some l => some l
  | none =>
    match mapFind ac.initialAccountIndex account with
    | some l => some l
    | none => mapFind ac.profitAccountIndex account

/-- The method `forEachAccountAgent`: the entries handed to the visitor, in
order.  The diagnostic loop of lines 46-49 dereferences the config of every
entry. -/
def forEachAccountAgent (self : AgentConfigurationListener) (account : AccountKey) :
    Except Failure (List AgentConfigEntry) :=
  match self.allAgents with
  | none => .ok []
  | some ac =>
    if ac.entries.any (fun ae => ae.config.isNone) then .error .nullDereference
    else
      match findAccount ac account with
      | none => .ok []
      | some positions => visitPositions ac positions

/-- The method `getAgentEntry`. -/
def getAgentEntry (self : AgentConfigurationListener) (agent : String) :
    Except Failure AgentConfigEntry :=
  match self.allAgents with
  | none => .ok {}
  | some ac =>
    match mapFind ac.agentIndex agent with
    | none => .ok {}
    | some i => vectorAt ac.entries i

/-! ## Concrete inputs used to exercise the definitions -/

/-- A parser given by a table of the payloads it accepts. -/
def tableParse (table : List (String × AgentConfig)) (s : String) : Except String AgentConfig :=
  match mapFind table s with
  | some cfg => .ok cfg
  | none => .error "parse error"

def cfgX : AgentConfig := ⟨["x"], [], [], "X"⟩
def cfgY : AgentConfig := ⟨["y"], ["x"], ["p"], "Y"⟩
def demoParse : String → Except String AgentConfig := tableParse [("X", cfgX), ("Y", cfgY)]
def fresh : AgentConfigurationListener := { allAgents := some {} }

/-! ## Specification vocabulary -/

/-- The entry has a config whose `account` is `k`. -/
def accountIs (k : AccountKey) (e : AgentConfigEntry) : Bool :=
  match e.config with
  | some cfg => decide (cfg.account = k)
  | none => false

/-- The entry has a config whose `initialBudgetAccount` is non-empty and is `k`. -/
def initialIs (k : AccountKey) (e : AgentConfigEntry) : Bool :=
  match e.config with
  | some cfg => decide (cfg.initialBudgetAccount ≠ [] ∧ cfg.initialBudgetAccount = k)
  | none => false

/-- The entry has a config whose `profitAccount` is non-empty and is `k`. -/
def profitIs (k : AccountKey) (e : AgentConfigEntry) : Bool :=
  match e.config with
  | some cfg => decide (cfg.profitAccount ≠ [] ∧ cfg.profitAccount = k)
  | none => false

/-- The entry is named `n`. -/
def nameIs (n : String) (e : AgentConfigEntry) : Bool := decide (e.name = n)

/-- The positions, counted from `s`, of the entries of a list that satisfy `p`,
in increasing order. -/
def positionsFrom (p : AgentConfigEntry → Bool) : Nat → List AgentConfigEntry → List Nat
  | _, [] => []
  | s, e :: es => if p e then s :: positionsFrom p (s + 1) es else positionsFrom p (s + 1) es

/-- What a map of position lists holds for a list of positions: a key with no
position is not a key of the map. -/
def listOrNone (l : List Nat) : Option (List Nat) := if l = [] then none else some l

/-- The entries indexed one after another into `newConfig`, each under its own
name. -/
def indexFrom : AllAgentConfig → List AgentConfigEntry → Except Failure AllAgentConfig
  | newConfig, [] => .ok newConfig
  | newConfig, e :: es =>
    match emplaceAndIndex newConfig e e.name with
    | .ok newConfig1 => indexFrom newConfig1 es
    | .error err => .error err

/-- What the loop does to one entry of the old snapshot: an entry named `agent`
gets the new config, or is dropped by a tombstone; any other entry is kept. -/
def rewriteEntry (agent : String) (config : Option AgentConfig) (c : AgentConfigEntry) :
    Option AgentConfigEntry :=
  if c.name = agent then
    match config with
    | some cfg => some { c with config := some cfg }
    | none => none
  else some c

/-- The entry sequence of the snapshot built from the entries `es` and the delta
`(agent, config)`. -/
def nextEntries (agent : String) (config : Option AgentConfig) (es : List AgentConfigEntry) :
    List AgentConfigEntry :=
  es.filterMap (rewriteEntry agent config) ++
    (if !es.any (nameIs agent) && config.isSome then [{ name := agent, config := config }] else [])

/-- The indexes of a snapshot describe its entries: every entry has a config, and
each index holds exactly the positions its key selects. -/
structure Indexed (N : AllAgentConfig) : Prop where
  configs : ∀ e ∈ N.entries, e.config ≠ none
  agent : ∀ n, mapFind N.agentIndex n = (positionsFrom (nameIs n) 0 N.entries).getLast?
  account : ∀ k, mapFind N.accountIndex k = listOrNone (positionsFrom (accountIs k) 0 N.entries)
  initial : ∀ k,
    mapFind N.initialAccountIndex k = listOrNone (positionsFrom (initialIs k) 0 N.entries)
  profit : ∀ k,
    mapFind N.profitAccountIndex k = listOrNone (positionsFrom (profitIs k) 0 N.entries)

/-- The snapshot is the index of its own entry sequence, and the names of its
entries are pairwise distinct. -/
structure Canonical (N : AllAgentConfig) : Prop where
  indexed : Indexed N
  rebuilt : indexFrom {} N.entries = .ok N
  distinct : (N.entries.map AgentConfigEntry.name).Nodup

/-- The snapshot `N` is the current snapshot after some list of messages has been
applied, one after another and with no exception, to a listener whose current
snapshot is empty. -/
def Produced (parse : String → Except String AgentConfig) (N : AllAgentConfig) : Prop :=
  ∃ (self0 self1 : AgentConfigurationListener) (messages : List (List String)),
    self0.allAgents = some {} ∧ applyAll parse self0 messages = ⟨none, self1⟩ ∧
    self1.allAgents = some N

/-- The delta `(agent, config)` carried by a message of three fields whose topic
is `CONFIG` and whose payload is empty or parses; `none` for any other
message. -/
def deltaOf (parse : String → Except String AgentConfig) :
    List String → Option (String × Option AgentConfig)
  | [topic, agent, payload] =>
    if topic = "CONFIG" then
      match decodeConfig parse payload with
      | .ok config => some (agent, config)
      | .error _ => none
    else none
  | _ => none

/-- The config carried by the last message about `a` in a list of messages:
`none` when no message is about `a`, `some none` when the last one is a
tombstone, `some (some cfg)` when it is an upsert of `cfg`. -/
def lastAbout (parse : String → Except String AgentConfig) (a : String) :
    List (List String) → Option (Option AgentConfig)
  | [] => none
  | m :: rest =>
    match lastAbout parse a rest with
    | some r => some r
    | none =>
      match deltaOf parse m with
      | some (agent, config) => if agent = a then some config else none
      | none => none

/-- The entry has a config whose `initialBudgetAccount` equals `k`, empty or
not. -/
def initialEq (k : AccountKey) (e : AgentConfigEntry) : Bool :=
  match e.config with
  | some cfg => decide (cfg.initialBudgetAccount = k)
  | none => false

/-- The entry has a config whose `profitAccount` equals `k`, empty or not. -/
def profitEq (k : AccountKey) (e : AgentConfigEntry) : Bool :=
  match e.config with
  | some cfg => decide (cfg.profitAccount = k)
  | none => false

/-- The entries the fallback rule visits when it is read with plain equality of
keys: those whose account is `k` if there is one, otherwise those whose
initialBudgetAccount is `k` if there is one, otherwise those whose
profitAccount is `k`. -/
def visitsByEquality (es : List AgentConfigEntry) (k : AccountKey) : List AgentConfigEntry :=
  if es.any (accountIs k) then es.filter (accountIs k)
  else if es.any (initialEq k) then es.filter (initialEq k)
  else if es.any (profitEq k) then es.filter (profitEq k)
  else []

/-- The entries the fallback rule visits when an empty initialBudgetAccount or
profitAccount counts as no account at all. -/
def visitsByIndex (es : List AgentConfigEntry) (k : AccountKey) : List AgentConfigEntry :=
  if es.any (accountIs k) then es.filter (accountIs k)
  else if es.any (initialIs k) then es.filter (initialIs k)
  else if es.any (profitIs k) then es.filter (profitIs k)
  else []

/-! ## Concrete snapshots -/

def entryA : AgentConfigEntry := { name := "A", config := some cfgX }
def entryB : AgentConfigEntry := { name := "B", config := some cfgY }

/-- The snapshot after the upsert of `A` with payload `X`. -/
def snapshotA : AllAgentConfig :=
  { entries := [entryA]
    agentIndex := [("A", 0)]
    accountIndex := [(["x"], [0])]
    initialAccountIndex := []
    profitAccountIndex := [] }

/-- The snapshot after the upserts of `A` with payload `X` and of `B` with
payload `Y`. -/
def snapshotAB : AllAgentConfig :=
  { entries := [entryA, entryB]
    agentIndex := [("A", 0), ("B", 1)]
    accountIndex := [(["x"], [0]), (["y"], [1])]
    initialAccountIndex := [(["x"], [1])]
    profitAccountIndex := [(["p"], [1])] }

def listenerA : AgentConfigurationListener :=
  { allAgents := some snapshotA, allAgentsGc := [{}] }

def listenerAB : AgentConfigurationListener :=
  { allAgents := some snapshotAB, allAgentsGc := [{}, snapshotA] }

/-- A listener whose current pointer is null: nothing has been published. -/
def unpublished : AgentConfigurationListener := { allAgents := none }

/-- The listener `listenerA` with the callback `onConfigChange` set. -/
def notifyingA : AgentConfigurationListener :=
  { allAgents := some snapshotA, allAgentsGc := [{}], onConfigChange := true }

/-! ## Lemmas on maps and positions -/

section MapLemmas
variable {K V : Type} [DecidableEq K]

theorem mapFind_mapAssign (m : List (K × V)) (k k' : K) (v : V) :
    mapFind (mapAssign m k v) k' = if k = k' then some v else mapFind m k' := by
  induction m with
  | nil => simp [mapAssign, mapFind]
  | cons kv rest ih =>
    obtain ⟨k0, v0⟩ := kv
    by_cases h0 : k0 = k
    · subst h0
      by_cases h1 : k0 = k' <;> simp [mapAssign, mapFind, h1]
    · by_cases h1 : k0 = k'
      · subst h1
        have h2 : ¬ k = k0 := fun h => h0 h.symm
        simp [mapAssign, mapFind, h0, h2]
      · simp [mapAssign, mapFind, h0, h1, ih]

theorem mapFind_mapPushBack (m : List (K × List Nat)) (k k' : K) (i : Nat) :
    mapFind (mapPushBack m k i) k' =
      if k = k' then some ((mapFind m k).getD [] ++ [i]) else mapFind m k' := by
  induction m with
  | nil => simp [mapPushBack, mapFind]
  | cons kv rest ih =>
    obtain ⟨k0, v0⟩ := kv
    by_cases h0 : k0 = k
    · subst h0
      by_cases h1 : k0 = k' <;> simp [mapPushBack, mapFind, h1]
    · by_cases h1 : k0 = k'
      · subst h1
        have h2 : ¬ k = k0 := fun h => h0 h.symm
        simp [mapPushBack, mapFind, h0, h2]
      · simp [mapPushBack, mapFind, h0, h1, ih]

end MapLemmas

theorem listOrNone_getD (l : List Nat) : (listOrNone l).getD [] = l := by
  unfold listOrNone
  split <;> simp_all

theorem positionsFrom_append (p : AgentConfigEntry → Bool) (s : Nat)
    (es : List AgentConfigEntry) (e : AgentConfigEntry) :
    positionsFrom p s (es ++ [e]) =
      positionsFrom p s es ++ (if p e then [s + es.length] else []) := by
  induction es generalizing s with
  | nil => simp [positionsFrom]
  | cons a rest ih =>
    have hlen : s + 1 + rest.length = s + (rest.length + 1) := by omega
    by_cases hp : p a = true
    · simp [positionsFrom, hp, ih, hlen]
    · simp [positionsFrom, hp, ih, hlen]

theorem mem_positionsFrom (p : AgentConfigEntry → Bool) (s : Nat)
    (es : List AgentConfigEntry) (i : Nat) :
    i ∈ positionsFrom p s es ↔ ∃ e, s ≤ i ∧ es[i - s]? = some e ∧ p e = true := by
  induction es generalizing s with
  | nil => simp [positionsFrom]
  | cons a rest ih =>
    have step : i ∈ positionsFrom p (s + 1) rest ↔
        ∃ e, s + 1 ≤ i ∧ (a :: rest)[i - s]? = some e ∧ p e = true := by
      rw [ih]
      constructor
      · rintro ⟨e, h1, h2, h3⟩
        refine ⟨e, h1, ?_, h3⟩
        have : i - s = (i - (s + 1)) + 1 := by omega
        rw [this, List.getElem?_cons_succ]
        exact h2
      · rintro ⟨e, h1, h2, h3⟩
        refine ⟨e, h1, ?_, h3⟩
        have : i - s = (i - (s + 1)) + 1 := by omega
        rw [this, List.getElem?_cons_succ] at h2
        exact h2
    by_cases hp : p a = true
    · rw [positionsFrom, if_pos hp, List.mem_cons, step]
      constructor
      · rintro (h | ⟨e, h1, h2, h3⟩)
        · subst h
          exact ⟨a, Nat.le_refl _, by simp, hp⟩
        · exact ⟨e, by omega, h2, h3⟩
      · rintro ⟨e, h1, h2, h3⟩
        by_cases hi : i = s
        · exact Or.inl hi
        · exact Or.inr ⟨e, by omega, h2, h3⟩
    · rw [positionsFrom, if_neg hp, step]
      constructor
      · rintro ⟨e, h1, h2, h3⟩
        exact ⟨e, by omega, h2, h3⟩
      · rintro ⟨e, h1, h2, h3⟩
        by_cases hi : i = s
        · subst hi
          simp at h2
          subst h2
          exact absurd h3 hp
        · exact ⟨e, by omega, h2, h3⟩

theorem positionsFrom_nodup (p : AgentConfigEntry → Bool) (s : Nat)
    (es : List AgentConfigEntry) : (positionsFrom p s es).Nodup := by
  induction es generalizing s with
  | nil => simp [positionsFrom]
  | cons a rest ih =>
    unfold positionsFrom
    split
    · refine List.nodup_cons.mpr ⟨?_, ih (s + 1)⟩
      intro h
      obtain ⟨e, h1, _, _⟩ := (mem_positionsFrom p (s + 1) rest s).mp h
      omega
    · exact ih (s + 1)

/-! ## The builder indexes what it appends -/

theorem listOrNone_append_singleton (l : List Nat) (i : Nat) :
    listOrNone (l ++ [i]) = some (l ++ [i]) := by
  simp [listOrNone]

theorem pushBack_step (idx : List (AccountKey × List Nat)) (p : AccountKey → AgentConfigEntry → Bool)
    (es : List AgentConfigEntry) (ce : AgentConfigEntry) (key : AccountKey)
    (h : ∀ k, mapFind idx k = listOrNone (positionsFrom (p k) 0 es))
    (hkey : ∀ k, p k ce = decide (key = k)) (k : AccountKey) :
    mapFind (mapPushBack idx key ((es ++ [ce]).length - 1)) k =
      listOrNone (positionsFrom (p k) 0 (es ++ [ce])) := by
  rw [mapFind_mapPushBack, positionsFrom_append, hkey]
  by_cases hk : key = k
  · subst hk
    simp [h, listOrNone_getD, listOrNone_append_singleton]
  · simp [hk, h]

theorem keep_step (idx : List (AccountKey × List Nat)) (p : AccountKey → AgentConfigEntry → Bool)
    (es : List AgentConfigEntry) (ce : AgentConfigEntry)
    (h : ∀ k, mapFind idx k = listOrNone (positionsFrom (p k) 0 es))
    (hkey : ∀ k, p k ce = false) (k : AccountKey) :
    mapFind idx k = listOrNone (positionsFrom (p k) 0 (es ++ [ce])) := by
  rw [positionsFrom_append, hkey]
  simp [h]

theorem emplaceAndIndex_indexed (N N1 : AllAgentConfig) (ce : AgentConfigEntry)
    (hN : Indexed N) (h : emplaceAndIndex N ce ce.name = .ok N1) :
    Indexed N1 ∧ N1.entries = N.entries ++ [ce] := by
  unfold emplaceAndIndex at h
  cases hc : ce.config with
  | none => simp [hc] at h
  | some conf =>
    simp only [hc] at h
    injection h with h
    subst h
    refine ⟨?_, rfl⟩
    constructor
    · intro e he
      rcases List.mem_append.mp he with he | he
      · exact hN.configs e he
      · simp at he
        subst he
        simp [hc]
    · intro n
      show mapFind (mapAssign N.agentIndex ce.name ((N.entries ++ [ce]).length - 1)) n = _
      rw [mapFind_mapAssign, positionsFrom_append]
      by_cases hn : ce.name = n
      · simp [hn, nameIs]
      · simp [hn, nameIs, hN.agent]
    · intro k
      exact pushBack_step N.accountIndex accountIs N.entries ce conf.account hN.account
        (fun k => by simp [accountIs, hc]) k
    · intro k
      show mapFind (if conf.initialBudgetAccount ≠ [] then _ else _) k = _
      by_cases he : conf.initialBudgetAccount = []
      · rw [if_neg (by simpa using he)]
        exact keep_step N.initialAccountIndex initialIs N.entries ce hN.initial
          (fun k => by simp [initialIs, hc, he]) k
      · rw [if_pos he]
        exact pushBack_step N.initialAccountIndex initialIs N.entries ce conf.initialBudgetAccount
          hN.initial (fun k => by simp [initialIs, hc, he]) k
    · intro k
      show mapFind (if conf.profitAccount ≠ [] then _ else _) k = _
      by_cases he : conf.profitAccount = []
      · rw [if_neg (by simpa using he)]
        exact keep_step N.profitAccountIndex profitIs N.entries ce hN.profit
          (fun k => by simp [profitIs, hc, he]) k
      · rw [if_pos he]
        exact pushBack_step N.profitAccountIndex profitIs N.entries ce conf.profitAccount
          hN.profit (fun k => by simp [profitIs, hc, he]) k

theorem emplaceAndIndex_isOk (N : AllAgentConfig) (ce : AgentConfigEntry) (key : String)
    (h : ce.config ≠ none) : ∃ N1, emplaceAndIndex N ce key = .ok N1 := by
  unfold emplaceAndIndex
  cases hc : ce.config with
  | none => exact absurd hc h
  | some conf => exact ⟨_, rfl⟩

theorem indexed_empty : Indexed {} := by
  constructor <;> simp [mapFind, positionsFrom, listOrNone]

theorem indexFrom_append (N : AllAgentConfig) (xs ys : List AgentConfigEntry) :
    indexFrom N (xs ++ ys) =
      match indexFrom N xs with
      | .ok N1 => indexFrom N1 ys
      | .error err => .error err := by
  induction xs generalizing N with
  | nil => simp [indexFrom]
  | cons x rest ih =>
    simp only [List.cons_append, indexFrom]
    cases emplaceAndIndex N x x.name with
    | error err => rfl
    | ok N1 => exact ih N1

theorem indexFrom_indexed (N N1 : AllAgentConfig) (es : List AgentConfigEntry)
    (hN : Indexed N) (h : indexFrom N es = .ok N1) :
    Indexed N1 ∧ N1.entries = N.entries ++ es := by
  induction es generalizing N with
  | nil =>
    simp only [indexFrom] at h
    injection h with h
    subst h
    exact ⟨hN, by simp⟩
  | cons e rest ih =>
    simp only [indexFrom] at h
    cases hs : emplaceAndIndex N e e.name with
    | error err => simp [hs] at h
    | ok N2 =>
      simp only [hs] at h
      obtain ⟨h2, h2e⟩ := emplaceAndIndex_indexed N N2 e hN hs
      obtain ⟨h3, h3e⟩ := ih N2 h2 h
      exact ⟨h3, by simp [h3e, h2e]⟩

theorem indexFrom_isOk (N : AllAgentConfig) (es : List AgentConfigEntry)
    (h : ∀ e ∈ es, e.config ≠ none) : ∃ N1, indexFrom N es = .ok N1 := by
  induction es generalizing N with
  | nil => exact ⟨N, rfl⟩
  | cons e rest ih =>
    obtain ⟨N2, h2⟩ := emplaceAndIndex_isOk N e e.name (h e (List.mem_cons_self _ _))
    obtain ⟨N3, h3⟩ := ih N2 (fun x hx => h x (List.mem_cons_of_mem _ hx))
    exact ⟨N3, by simp [indexFrom, h2, h3]⟩

/-! ## The loop as a rewrite of the entry sequence -/

theorem copyLoop_eq (agent : String) (config : Option AgentConfig) (es : List AgentConfigEntry)
    (N : AllAgentConfig) (found : Bool) :
    copyLoop agent config es N found =
      match indexFrom N (es.filterMap (rewriteEntry agent config)) with
      | .ok N1 => .ok (N1, found || es.any (nameIs agent))
      | .error err => .error err := by
  induction es generalizing N found with
  | nil => simp [copyLoop, indexFrom]
  | cons c rest ih =>
    by_cases hc : c.name = agent
    · cases config with
      | none =>
        simp only [copyLoop, hc, if_true, List.filterMap_cons, rewriteEntry, ih]
        simp [nameIs, hc]
      | some cfg =>
        simp only [copyLoop, hc, if_true, List.filterMap_cons, rewriteEntry, indexFrom]
        generalize emplaceAndIndex N _ _ = r
        cases r with
        | error err => rfl
        | ok N1 =>
          simp only [ih]
          simp [nameIs, hc]
    · simp only [copyLoop, hc, if_false, List.filterMap_cons, rewriteEntry, indexFrom]
      generalize emplaceAndIndex N _ _ = r
      cases r with
      | error err => rfl
      | ok N1 =>
        simp only [ih]
        simp [nameIs, hc]

theorem buildNewConfig_eq (ac : AllAgentConfig) (agent : String) (config : Option AgentConfig) :
    buildNewConfig ac agent config = indexFrom {} (nextEntries agent config ac.entries) := by
  unfold buildNewConfig nextEntries
  rw [copyLoop_eq, indexFrom_append]
  cases indexFrom {} (ac.entries.filterMap (rewriteEntry agent config)) with
  | error err => rfl
  | ok N1 =>
    by_cases hcond : (!ac.entries.any (nameIs agent) && config.isSome) = true
    · simp only [Bool.false_or, hcond, if_true, indexFrom]
      cases emplaceAndIndex N1 { name := agent, config := config } agent <;> rfl
    · simp only [Bool.false_or, hcond, indexFrom]
      rfl

/-! ## One call of onMessage -/

theorem onMessage_step (parse : String → Except String AgentConfig)
    (self : AgentConfigurationListener) (message : List String)
    (agent configStr : String) (config : Option AgentConfig) (ac N : AllAgentConfig)
    (h0 : message[0]? = some "CONFIG") (h1 : message[1]? = some agent)
    (h2 : message[2]? = some configStr) (hd : decodeConfig parse configStr = .ok config)
    (hac : self.allAgents = some ac) (hb : buildNewConfig ac agent config = .ok N) :
    onMessage parse none self message =
      ⟨none, { allAgents := some N
               allAgentsGc := self.allAgentsGc ++ [ac]
               onConfigChange := self.onConfigChange
               configChanges :=
                 if self.onConfigChange then self.configChanges ++ [(agent, config)]
                 else self.configChanges }⟩ := by
  unfold onMessage vectorAt
  simp only [h0, h1, h2, hd, hac, hb]
  by_cases hcb : self.onConfigChange = true <;> simp [hcb]

theorem onMessage_inv (parse : String → Except String AgentConfig)
    (self self1 : AgentConfigurationListener) (message : List String)
    (h : onMessage parse none self message = ⟨none, self1⟩) :
    (self1 = self ∧ ∃ topic, message[0]? = some topic ∧ topic ≠ "CONFIG") ∨
    (∃ agent configStr config ac N,
      message[0]? = some "CONFIG" ∧ message[1]? = some agent ∧ message[2]? = some configStr ∧
      decodeConfig parse configStr = .ok config ∧ self.allAgents = some ac ∧
      buildNewConfig ac agent config = .ok N ∧ self1.allAgents = some N ∧
      self1.allAgentsGc = self.allAgentsGc ++ [ac] ∧
      self1.onConfigChange = self.onConfigChange ∧
      self1.configChanges =
        if self.onConfigChange then self.configChanges ++ [(agent, config)]
        else self.configChanges) := by
  cases h0 : message[0]? with
  | none => simp [onMessage, vectorAt, h0] at h
  | some topic =>
    by_cases ht : topic = "CONFIG"
    · subst ht
      right
      cases h1 : message[1]? with
      | none => simp [onMessage, vectorAt, h0, h1] at h
      | some agent =>
        cases h2 : message[2]? with
        | none => simp [onMessage, vectorAt, h0, h1, h2] at h
        | some configStr =>
          cases hd : decodeConfig parse configStr with
          | error e => simp [onMessage, vectorAt, h0, h1, h2, hd] at h
          | ok config =>
            cases hac : self.allAgents with
            | none => simp [onMessage, vectorAt, h0, h1, h2, hd, hac] at h
            | some ac =>
              cases hb : buildNewConfig ac agent config with
              | error e => simp [onMessage, vectorAt, h0, h1, h2, hd, hac, hb] at h
              | ok N =>
                rw [onMessage_step parse self message agent configStr config ac N h0 h1 h2 hd
                  hac hb] at h
                injection h with _ h
                subst h
                exact ⟨agent, configStr, config, ac, N, rfl, rfl, rfl, hd, rfl, hb, rfl, rfl,
                  rfl, rfl⟩
    · left
      simp [onMessage, vectorAt, h0, ht] at h
      exact ⟨h.symm, topic, rfl, ht⟩

/-! ## Snapshots produced from the empty snapshot -/

theorem names_filterMap (agent : String) (config : Option AgentConfig)
    (es : List AgentConfigEntry) :
    (es.filterMap (rewriteEntry agent config)).map AgentConfigEntry.name =
      (es.map AgentConfigEntry.name).filter (fun n => decide (n ≠ agent) || config.isSome) := by
  induction es with
  | nil => rfl
  | cons e rest ih =>
    by_cases he : e.name = agent
    · cases config with
      | none => simpa [List.filterMap_cons, rewriteEntry, he] using ih
      | some cfg => simpa [List.filterMap_cons, rewriteEntry, he] using ih
    · simpa [List.filterMap_cons, rewriteEntry, he] using ih

theorem any_nameIs (agent : String) (es : List AgentConfigEntry) :
    es.any (nameIs agent) = true ↔ agent ∈ es.map AgentConfigEntry.name := by
  simp only [List.any_eq_true, nameIs, decide_eq_true_eq, List.mem_map]

theorem nextEntries_distinct (agent : String) (config : Option AgentConfig)
    (es : List AgentConfigEntry) (h : (es.map AgentConfigEntry.name).Nodup) :
    ((nextEntries agent config es).map AgentConfigEntry.name).Nodup := by
  unfold nextEntries
  rw [List.map_append, names_filterMap]
  by_cases hcond : (!es.any (nameIs agent) && config.isSome) = true
  · rw [if_pos hcond]
    have hnot : agent ∉ es.map AgentConfigEntry.name := by
      intro hmem
      have := (any_nameIs agent es).mpr hmem
      simp [this] at hcond
    refine List.nodup_append.mpr ⟨h.filter _, by simp, ?_⟩
    intro n hn hn1
    simp at hn1
    subst hn1
    exact hnot (List.mem_filter.mp hn).1
  · rw [if_neg hcond]
    simpa using h.filter _

theorem buildNewConfig_canonical (P N : AllAgentConfig) (agent : String)
    (config : Option AgentConfig) (hP : (P.entries.map AgentConfigEntry.name).Nodup)
    (h : buildNewConfig P agent config = .ok N) :
    Canonical N ∧ N.entries = nextEntries agent config P.entries := by
  rw [buildNewConfig_eq] at h
  obtain ⟨hi, he⟩ := indexFrom_indexed {} N _ indexed_empty h
  have he1 : N.entries = nextEntries agent config P.entries := by simpa using he
  refine ⟨⟨hi, ?_, ?_⟩, he1⟩
  · rw [he1]
    exact h
  · rw [he1]
    exact nextEntries_distinct agent config P.entries hP

theorem canonical_empty : Canonical {} :=
  ⟨indexed_empty, rfl, by simp⟩

theorem applyAll_canonical (parse : String → Except String AgentConfig)
    (messages : List (List String)) (self self1 : AgentConfigurationListener)
    (P : AllAgentConfig) (hP : self.allAgents = some P) (hc : Canonical P)
    (h : applyAll parse self messages = ⟨none, self1⟩) :
    ∃ N, self1.allAgents = some N ∧ Canonical N := by
  induction messages generalizing self P with
  | nil =>
    simp only [applyAll] at h
    injection h with _ h
    subst h
    exact ⟨P, hP, hc⟩
  | cons m rest ih =>
    simp only [applyAll] at h
    cases hs : onMessage parse none self m with
    | mk raised self2 =>
      cases raised with
      | some e => simp [hs] at h
      | none =>
        simp only [hs] at h
        rcases onMessage_inv parse self self2 m hs with ⟨heq, _⟩ |
          ⟨agent, configStr, config, ac, N, _, _, _, _, hac, hb, hN, _⟩
        · subst heq
          exact ih self2 P hP hc h
        · rw [hP] at hac
          injection hac with hac
          subst hac
          exact ih self2 N hN (buildNewConfig_canonical P N agent config hc.distinct hb).1 h

theorem produced_canonical (parse : String → Except String AgentConfig) (N : AllAgentConfig)
    (h : Produced parse N) : Canonical N := by
  obtain ⟨self0, self1, messages, h0, hrun, h1⟩ := h
  obtain ⟨N1, hN1, hc⟩ := applyAll_canonical parse messages self0 self1 {} h0 canonical_empty hrun
  rw [h1] at hN1
  injection hN1 with hN1
  subst hN1
  exact hc

/-! ## Reading an indexed snapshot -/

theorem listOrNone_eq_some (l l1 : List Nat) (h : listOrNone l = some l1) : l1 = l := by
  unfold listOrNone at h
  split at h
  · simp at h
  · injection h with h
    exact h.symm

theorem position_unique (es : List AgentConfigEntry)
    (h : (es.map AgentConfigEntry.name).Nodup) (i j : Nat) (e1 e2 : AgentConfigEntry)
    (hi : es[i]? = some e1) (hj : es[j]? = some e2) (hn : e1.name = e2.name) : i = j := by
  have hi1 : (es.map AgentConfigEntry.name)[i]? = some e1.name := by simp [hi]
  have hj1 : (es.map AgentConfigEntry.name)[j]? = some e1.name := by simp [hj, hn]
  have hil : i < (es.map AgentConfigEntry.name).length := by
    rcases List.getElem?_eq_some_iff.mp hi1 with ⟨hlt, _⟩
    exact hlt
  have hjl : j < (es.map AgentConfigEntry.name).length := by
    rcases List.getElem?_eq_some_iff.mp hj1 with ⟨hlt, _⟩
    exact hlt
  have hne := List.nodup_iff_getElem?_ne_getElem?.mp h
  rcases Nat.lt_trichotomy i j with hlt | heq | hgt
  · exact absurd (hi1.trans hj1.symm) (hne i j hlt hjl)
  · exact heq
  · exact absurd (hj1.trans hi1.symm) (hne j i hgt hil)

theorem agentIndex_sound (N : AllAgentConfig) (hN : Indexed N) (n : String) (i : Nat)
    (h : mapFind N.agentIndex n = some i) :
    ∃ e, N.entries[i]? = some e ∧ e.name = n := by
  rw [hN.agent] at h
  obtain ⟨e, _, he, hp⟩ := (mem_positionsFrom _ 0 _ i).mp (List.mem_of_getLast?_eq_some h)
  exact ⟨e, by simpa using he, by simpa [nameIs] using hp⟩

theorem agentIndex_complete (N : AllAgentConfig) (hN : Canonical N) (i : Nat)
    (e : AgentConfigEntry) (h : N.entries[i]? = some e) :
    mapFind N.agentIndex e.name = some i := by
  rw [hN.indexed.agent]
  have hmem : i ∈ positionsFrom (nameIs e.name) 0 N.entries :=
    (mem_positionsFrom _ 0 _ i).mpr ⟨e, Nat.zero_le _, by simpa using h, by simp [nameIs]⟩
  cases hl : (positionsFrom (nameIs e.name) 0 N.entries).getLast? with
  | none =>
    rw [List.getLast?_eq_none_iff] at hl
    rw [hl] at hmem
    exact absurd hmem (List.not_mem_nil _)
  | some j =>
    obtain ⟨e2, _, he2, hp2⟩ := (mem_positionsFrom _ 0 _ j).mp (List.mem_of_getLast?_eq_some hl)
    have hname : e2.name = e.name := by simpa [nameIs] using hp2
    have : j = i := position_unique N.entries hN.distinct j i e2 e (by simpa using he2) h hname
    rw [this]

theorem accountIndex_mem (N : AllAgentConfig) (hN : Indexed N) (k : AccountKey) (i : Nat) :
    i ∈ (mapFind N.accountIndex k).getD [] ↔
      ∃ e cfg, N.entries[i]? = some e ∧ e.config = some cfg ∧ cfg.account = k := by
  rw [hN.account, listOrNone_getD, mem_positionsFrom]
  constructor
  · rintro ⟨e, _, he, hp⟩
    cases hc : e.config with
    | none => simp [accountIs, hc] at hp
    | some cfg => exact ⟨e, cfg, by simpa using he, hc, by simpa [accountIs, hc] using hp⟩
  · rintro ⟨e, cfg, he, hc, hk⟩
    exact ⟨e, Nat.zero_le _, by simpa using he, by simp [accountIs, hc, hk]⟩

theorem initialAccountIndex_mem (N : AllAgentConfig) (hN : Indexed N) (k : AccountKey) (i : Nat) :
    i ∈ (mapFind N.initialAccountIndex k).getD [] ↔
      ∃ e cfg, N.entries[i]? = some e ∧ e.config = some cfg ∧
        cfg.initialBudgetAccount ≠ [] ∧ cfg.initialBudgetAccount = k := by
  rw [hN.initial, listOrNone_getD, mem_positionsFrom]
  constructor
  · rintro ⟨e, _, he, hp⟩
    cases hc : e.config with
    | none => simp [initialIs, hc] at hp
    | some cfg =>
      have hp1 : cfg.initialBudgetAccount ≠ [] ∧ cfg.initialBudgetAccount = k := by
        simpa [initialIs, hc] using hp
      exact ⟨e, cfg, by simpa using he, hc, hp1.1, hp1.2⟩
  · rintro ⟨e, cfg, he, hc, hne, rfl⟩
    exact ⟨e, Nat.zero_le _, by simpa using he, by simp [initialIs, hc, hne]⟩

theorem profitAccountIndex_mem (N : AllAgentConfig) (hN : Indexed N) (k : AccountKey) (i : Nat) :
    i ∈ (mapFind N.profitAccountIndex k).getD [] ↔
      ∃ e cfg, N.entries[i]? = some e ∧ e.config = some cfg ∧
        cfg.profitAccount ≠ [] ∧ cfg.profitAccount = k := by
  rw [hN.profit, listOrNone_getD, mem_positionsFrom]
  constructor
  · rintro ⟨e, _, he, hp⟩
    cases hc : e.config with
    | none => simp [profitIs, hc] at hp
    | some cfg =>
      have hp1 : cfg.profitAccount ≠ [] ∧ cfg.profitAccount = k := by
        simpa [profitIs, hc] using hp
      exact ⟨e, cfg, by simpa using he, hc, hp1.1, hp1.2⟩
  · rintro ⟨e, cfg, he, hc, hne, rfl⟩
    exact ⟨e, Nat.zero_le _, by simpa using he, by simp [profitIs, hc, hne]⟩

theorem positionsFrom_false (p : AgentConfigEntry → Bool) (s : Nat) (es : List AgentConfigEntry)
    (h : ∀ e ∈ es, p e = false) : positionsFrom p s es = [] := by
  induction es generalizing s with
  | nil => rfl
  | cons a rest ih =>
    simp [positionsFrom, h a (List.mem_cons_self _ _),
      ih (s + 1) (fun e he => h e (List.mem_cons_of_mem _ he))]

theorem initialAccountIndex_empty_key (N : AllAgentConfig) (hN : Indexed N) :
    mapFind N.initialAccountIndex [] = none := by
  rw [hN.initial, positionsFrom_false]
  · rfl
  · intro e _
    cases hc : e.config <;> simp [initialIs, hc]

theorem profitAccountIndex_empty_key (N : AllAgentConfig) (hN : Indexed N) :
    mapFind N.profitAccountIndex [] = none := by
  rw [hN.profit, positionsFrom_false]
  · rfl
  · intro e _
    cases hc : e.config <;> simp [profitIs, hc]

/-! ## The readers on an indexed snapshot -/

theorem listOrNone_positions (p : AgentConfigEntry → Bool) (s : Nat)
    (es : List AgentConfigEntry) :
    listOrNone (positionsFrom p s es) =
      if es.any p then some (positionsFrom p s es) else none := by
  induction es generalizing s with
  | nil => simp [positionsFrom, listOrNone]
  | cons a rest ih =>
    by_cases hp : p a = true
    · simp [positionsFrom, hp, listOrNone]
    · have := ih (s + 1)
      simpa [positionsFrom, hp] using this

theorem visitPositions_positions (N : AllAgentConfig) (p : AgentConfigEntry → Bool)
    (es pre : List AgentConfigEntry) (h : N.entries = pre ++ es) :
    visitPositions N (positionsFrom p pre.length es) = .ok (es.filter p) := by
  induction es generalizing pre with
  | nil => simp [positionsFrom, visitPositions]
  | cons a rest ih =>
    have hrest := ih (pre ++ [a]) (by simp [h])
    simp only [List.length_append, List.length_singleton] at hrest
    have hat : vectorAt N.entries pre.length = .ok a := by
      have : (pre ++ a :: rest)[pre.length]? = some a := by
        rw [List.getElem?_append_right (Nat.le_refl _)]
        simp
      simp [vectorAt, h, this]
    by_cases hp : p a = true
    · simp [positionsFrom, hp, visitPositions, hat, hrest]
    · simp [positionsFrom, hp, hrest]

theorem forEachAccountAgent_indexed (self : AgentConfigurationListener) (N : AllAgentConfig)
    (hs : self.allAgents = some N) (hN : Indexed N) (k : AccountKey) :
    forEachAccountAgent self k = .ok
      (if N.entries.any (accountIs k) then N.entries.filter (accountIs k)
       else if N.entries.any (initialIs k) then N.entries.filter (initialIs k)
       else if N.entries.any (profitIs k) then N.entries.filter (profitIs k)
       else []) := by
  have hcfg : N.entries.any (fun ae => ae.config.isNone) = false := by
    rw [List.any_eq_false]
    intro e he
    have := hN.configs e he
    cases hc : e.config with
    | none => exact absurd hc this
    | some cfg => simp
  have hv : ∀ p, visitPositions N (positionsFrom p 0 N.entries) = .ok (N.entries.filter p) :=
    fun p => visitPositions_positions N p N.entries [] (by simp)
  unfold forEachAccountAgent findAccount
  simp only [hs, hcfg, hN.account, hN.initial, hN.profit, listOrNone_positions]
  by_cases h1 : N.entries.any (accountIs k) = true
  · simp [h1, hv]
  · by_cases h2 : N.entries.any (initialIs k) = true
    · simp [h1, h2, hv]
    · by_cases h3 : N.entries.any (profitIs k) = true
      · simp [h1, h2, h3, hv]
      · simp [h1, h2, h3]

theorem getAgentEntry_present (self : AgentConfigurationListener) (N : AllAgentConfig)
    (hs : self.allAgents = some N) (hN : Canonical N) (e : AgentConfigEntry)
    (he : e ∈ N.entries) : getAgentEntry self e.name = .ok e := by
  obtain ⟨i, hi⟩ := List.mem_iff_getElem?.mp he
  unfold getAgentEntry
  simp [hs, agentIndex_complete N hN i e hi, vectorAt, hi]

theorem getAgentEntry_absent (self : AgentConfigurationListener) (N : AllAgentConfig)
    (hs : self.allAgents = some N) (hN : Indexed N) (agent : String)
    (h : ∀ e ∈ N.entries, e.name ≠ agent) : getAgentEntry self agent = .ok {} := by
  unfold getAgentEntry
  cases hf : mapFind N.agentIndex agent with
  | none => simp [hs, hf]
  | some i =>
    obtain ⟨e, he, hn⟩ := agentIndex_sound N hN agent i hf
    exact absurd hn (h e (List.getElem?_mem he))

/-! ## The shape of the rebuilt entry sequence -/

theorem filterMap_rewrite_none (agent : String) (es : List AgentConfigEntry) :
    es.filterMap (rewriteEntry agent none) = es.filter (fun e => !nameIs agent e) := by
  induction es with
  | nil => rfl
  | cons e rest ih =>
    by_cases he : e.name = agent
    · simp [List.filterMap_cons, rewriteEntry, nameIs, he, ih]
    · simp [List.filterMap_cons, rewriteEntry, nameIs, he, ih]

theorem filterMap_rewrite_some (agent : String) (cfg : AgentConfig)
    (es : List AgentConfigEntry) :
    es.filterMap (rewriteEntry agent (some cfg)) =
      es.map (fun e => if e.name = agent then { e with config := some cfg } else e) := by
  induction es with
  | nil => rfl
  | cons e rest ih =>
    by_cases he : e.name = agent
    · simp [List.filterMap_cons, rewriteEntry, he, ih]
    · simp [List.filterMap_cons, rewriteEntry, he, ih]

theorem filterMap_rewrite_absent (agent : String) (config : Option AgentConfig)
    (es : List AgentConfigEntry) (h : ∀ e ∈ es, e.name ≠ agent) :
    es.filterMap (rewriteEntry agent config) = es := by
  induction es with
  | nil => rfl
  | cons e rest ih =>
    have he : e.name ≠ agent := h e (List.mem_cons_self _ _)
    simp [List.filterMap_cons, rewriteEntry, he, ih (fun x hx => h x (List.mem_cons_of_mem _ hx))]

theorem any_nameIs_false (agent : String) (es : List AgentConfigEntry)
    (h : ∀ e ∈ es, e.name ≠ agent) : es.any (nameIs agent) = false := by
  rw [List.any_eq_false]
  intro e he
  simp [nameIs, h e he]

theorem any_nameIs_true (agent : String) (es : List AgentConfigEntry) (e : AgentConfigEntry)
    (he : e ∈ es) (hn : e.name = agent) : es.any (nameIs agent) = true := by
  rw [List.any_eq_true]
  exact ⟨e, he, by simp [nameIs, hn]⟩

theorem nextEntries_tombstone (agent : String) (es : List AgentConfigEntry) :
    nextEntries agent none es = es.filter (fun e => !nameIs agent e) := by
  simp [nextEntries, filterMap_rewrite_none]

theorem nextEntries_tombstone_absent (agent : String) (es : List AgentConfigEntry)
    (h : ∀ e ∈ es, e.name ≠ agent) : nextEntries agent none es = es := by
  simp [nextEntries, filterMap_rewrite_absent agent none es h]

theorem nextEntries_upsert_absent (agent : String) (cfg : AgentConfig)
    (es : List AgentConfigEntry) (h : ∀ e ∈ es, e.name ≠ agent) :
    nextEntries agent (some cfg) es = es ++ [{ name := agent, config := some cfg }] := by
  simp [nextEntries, filterMap_rewrite_absent agent (some cfg) es h, any_nameIs_false agent es h]

theorem nextEntries_upsert_present (agent : String) (cfg : AgentConfig)
    (es : List AgentConfigEntry) (e : AgentConfigEntry) (he : e ∈ es) (hn : e.name = agent) :
    nextEntries agent (some cfg) es =
      es.map (fun e => if e.name = agent then { e with config := some cfg } else e) := by
  simp [nextEntries, filterMap_rewrite_some, any_nameIs_true agent es e he hn]

theorem not_named_of_distinct (x : AgentConfigEntry) (rest : List AgentConfigEntry)
    (h : ((x :: rest).map AgentConfigEntry.name).Nodup) :
    ∀ e ∈ rest, e.name ≠ x.name := by
  intro e he hn
  rw [List.map_cons, List.nodup_cons] at h
  exact h.1 (hn ▸ List.mem_map_of_mem _ he)

theorem filter_eq_eraseIdx (agent : String) (es : List AgentConfigEntry)
    (h : (es.map AgentConfigEntry.name).Nodup) (i : Nat) (e : AgentConfigEntry)
    (hi : es[i]? = some e) (hn : e.name = agent) :
    es.filter (fun e => !nameIs agent e) = es.eraseIdx i := by
  induction es generalizing i with
  | nil => simp at hi
  | cons x rest ih =>
    have hrest : (rest.map AgentConfigEntry.name).Nodup := by
      rw [List.map_cons, List.nodup_cons] at h
      exact h.2
    cases i with
    | zero =>
      simp at hi
      subst hi
      have hx := not_named_of_distinct x rest h
      rw [hn] at hx
      have := filterMap_rewrite_absent agent none rest hx
      rw [filterMap_rewrite_none] at this
      rw [List.filter_cons_of_neg (by simp [nameIs, hn]), this]
      rfl
    | succ j =>
      simp at hi
      have hx : x.name ≠ agent := by
        intro hxa
        exact not_named_of_distinct x rest h e (List.getElem?_mem hi) (by rw [hn, hxa])
      rw [List.filter_cons_of_pos (by simp [nameIs, hx]), ih hrest j hi]
      rfl

theorem map_eq_set (agent : String) (cfg : AgentConfig) (es : List AgentConfigEntry)
    (h : (es.map AgentConfigEntry.name).Nodup) (i : Nat) (e : AgentConfigEntry)
    (hi : es[i]? = some e) (hn : e.name = agent) :
    es.map (fun e => if e.name = agent then { e with config := some cfg } else e) =
      es.set i { name := agent, config := some cfg } := by
  induction es generalizing i with
  | nil => simp at hi
  | cons x rest ih =>
    have hrest : (rest.map AgentConfigEntry.name).Nodup := by
      rw [List.map_cons, List.nodup_cons] at h
      exact h.2
    cases i with
    | zero =>
      simp at hi
      subst hi
      have hx := not_named_of_distinct x rest h
      rw [hn] at hx
      have := filterMap_rewrite_absent agent (some cfg) rest hx
      rw [filterMap_rewrite_some] at this
      simp [hn, this]
    | succ j =>
      simp at hi
      have hx : x.name ≠ agent := by
        intro hxa
        exact not_named_of_distinct x rest h e (List.getElem?_mem hi) (by rw [hn, hxa])
      simp [hx, ih hrest j hi]

theorem mem_nextEntries (agent : String) (config : Option AgentConfig)
    (es : List AgentConfigEntry) (e : AgentConfigEntry) :
    e ∈ nextEntries agent config es ↔
      (e.name ≠ agent ∧ e ∈ es) ∨
      (e.name = agent ∧ ∃ cfg, config = some cfg ∧ e.config = some cfg) := by
  by_cases hany : ∀ x ∈ es, x.name ≠ agent
  · cases config with
    | none =>
      rw [nextEntries_tombstone_absent agent es hany]
      constructor
      · intro he
        exact Or.inl ⟨hany e he, he⟩
      · rintro (⟨_, he⟩ | ⟨_, cfg, hc, _⟩)
        · exact he
        · simp at hc
    | some cfg =>
      rw [nextEntries_upsert_absent agent cfg es hany, List.mem_append]
      constructor
      · rintro (he | he)
        · exact Or.inl ⟨hany e he, he⟩
        · simp at he
          subst he
          exact Or.inr ⟨rfl, cfg, rfl, rfl⟩
      · rintro (⟨_, he⟩ | ⟨hn, cfg1, hc, hec⟩)
        · exact Or.inl he
        · right
          injection hc with hc
          subst hc
          cases e
          simp at hn hec
          simp [hn, hec]
  · push_neg at hany
    obtain ⟨x, hx, hxn⟩ := hany
    cases config with
    | none =>
      rw [nextEntries_tombstone, List.mem_filter]
      constructor
      · rintro ⟨he, hp⟩
        exact Or.inl ⟨by simpa [nameIs] using hp, he⟩
      · rintro (⟨hn, he⟩ | ⟨_, cfg, hc, _⟩)
        · exact ⟨he, by simpa [nameIs] using hn⟩
        · simp at hc
    | some cfg =>
      rw [nextEntries_upsert_present agent cfg es x hx hxn, List.mem_map]
      constructor
      · rintro ⟨y, hy, hye⟩
        by_cases hyn : y.name = agent
        · rw [if_pos hyn] at hye
          subst hye
          exact Or.inr ⟨hyn, cfg, rfl, rfl⟩
        · rw [if_neg hyn] at hye
          subst hye
          exact Or.inl ⟨hyn, hy⟩
      · rintro (⟨hn, he⟩ | ⟨hn, cfg1, hc, hec⟩)
        · exact ⟨e, he, by rw [if_neg hn]⟩
        · injection hc with hc
          subst hc
          refine ⟨x, hx, ?_⟩
          rw [if_pos hxn]
          cases e
          simp at hn hec
          simp [hn, hec, hxn]

theorem buildNewConfig_isOk (P : AllAgentConfig) (agent : String) (config : Option AgentConfig)
    (h : ∀ e ∈ P.entries, e.config ≠ none) : ∃ N, buildNewConfig P agent config = .ok N := by
  rw [buildNewConfig_eq]
  apply indexFrom_isOk
  intro e he
  rcases (mem_nextEntries agent config P.entries e).mp he with ⟨_, hmem⟩ | ⟨_, cfg, _, hc⟩
  · exact h e hmem
  · simp [hc]

theorem buildNewConfig_indexed (P N : AllAgentConfig) (agent : String)
    (config : Option AgentConfig) (h : buildNewConfig P agent config = .ok N) :
    Indexed N ∧ N.entries = nextEntries agent config P.entries ∧
      indexFrom {} N.entries = .ok N := by
  rw [buildNewConfig_eq] at h
  obtain ⟨hi, he⟩ := indexFrom_indexed {} N _ indexed_empty h
  have he1 : N.entries = nextEntries agent config P.entries := by simpa using he
  exact ⟨hi, he1, by rw [he1]; exact h⟩

/-! ## Checks of the concrete snapshots -/

theorem run_listenerA : applyAll demoParse fresh [["CONFIG", "A", "X"]] = ⟨none, listenerA⟩ := by
  decide

theorem run_listenerAB :
    applyAll demoParse fresh [["CONFIG", "A", "X"], ["CONFIG", "B", "Y"]] = ⟨none, listenerAB⟩ := by
  decide

theorem step_listenerAB :
    onMessage demoParse none listenerA ["CONFIG", "B", "Y"] = ⟨none, listenerAB⟩ := by
  decide

/-! ## Runs of messages -/

theorem decodeConfig_empty (parse : String → Except String AgentConfig) :
    decodeConfig parse "" = .ok none := by
  simp [decodeConfig]

theorem deltaOf_isSome (parse : String → Except String AgentConfig) (m : List String)
    (h : (deltaOf parse m).isSome = true) :
    ∃ agent payload config, m = ["CONFIG", agent, payload] ∧
      decodeConfig parse payload = .ok config ∧ deltaOf parse m = some (agent, config) := by
  rcases m with _ | ⟨t, _ | ⟨a, _ | ⟨p, _ | ⟨x, r⟩⟩⟩⟩
  · simp [deltaOf] at h
  · simp [deltaOf] at h
  · simp [deltaOf] at h
  · by_cases ht : t = "CONFIG"
    · subst ht
      cases hd : decodeConfig parse p with
      | error err => simp [deltaOf, hd] at h
      | ok config => exact ⟨a, p, config, rfl, hd, by simp [deltaOf, hd]⟩
    · simp [deltaOf, ht] at h
  · simp [deltaOf] at h

theorem applyAll_entries (parse : String → Except String AgentConfig)
    (messages : List (List String)) (self : AgentConfigurationListener) (P : AllAgentConfig)
    (hs : self.allAgents = some P) (hcfg : ∀ e ∈ P.entries, e.config ≠ none)
    (hm : ∀ m ∈ messages, (deltaOf parse m).isSome = true) :
    ∃ self1 N, applyAll parse self messages = ⟨none, self1⟩ ∧ self1.allAgents = some N ∧
      ∀ a e, (e ∈ N.entries ∧ e.name = a) ↔
        (match lastAbout parse a messages with
         | some (some cfg) => e = { name := a, config := some cfg }
         | some none => False
         | none => e ∈ P.entries ∧ e.name = a) := by
  induction messages generalizing self P with
  | nil => exact ⟨self, P, rfl, hs, fun a e => by simp [lastAbout]⟩
  | cons m rest ih =>
    obtain ⟨agent, payload, config, hmsg, hdec, hdelta⟩ :=
      deltaOf_isSome parse m (hm m (List.mem_cons_self _ _))
    obtain ⟨N1, hb⟩ := buildNewConfig_isOk P agent config hcfg
    obtain ⟨hi1, hent1, _⟩ := buildNewConfig_indexed P N1 agent config hb
    obtain ⟨self1, hstep, hs1⟩ :
        ∃ self1, onMessage parse none self m = ⟨none, self1⟩ ∧ self1.allAgents = some N1 :=
      ⟨_, onMessage_step parse self m agent payload config P N1 (by simp [hmsg])
        (by simp [hmsg]) (by simp [hmsg]) hdec hs hb, rfl⟩
    obtain ⟨self2, N, hrun, hN, hchar⟩ := ih self1 N1 hs1 hi1.configs
      (fun x hx => hm x (List.mem_cons_of_mem _ hx))
    refine ⟨self2, N, ?_, hN, ?_⟩
    · simp only [applyAll, hstep]
      exact hrun
    · intro a e
      rw [hchar a e]
      simp only [lastAbout, hdelta]
      cases hl : lastAbout parse a rest with
      | some r =>
        cases r with
        | none => exact Iff.rfl
        | some cfg => exact Iff.rfl
      | none =>
        simp only []
        rw [hent1, mem_nextEntries]
        by_cases ha : agent = a
        · subst ha
          simp only [if_true]
          cases config with
          | none =>
            simp only []
            constructor
            · rintro ⟨⟨hne, _⟩ | ⟨_, cfg, hc, _⟩, hn⟩
              · exact hne hn
              · simp at hc
            · intro hf
              exact hf.elim
          | some cfg =>
            simp only []
            constructor
            · rintro ⟨⟨hne, _⟩ | ⟨_, cfg1, hc, hec⟩, hn⟩
              · exact absurd hn hne
              · injection hc with hc
                subst hc
                cases e
                simp at hn hec
                simp [hn, hec]
            · intro he
              subst he
              exact ⟨Or.inr ⟨rfl, cfg, rfl, rfl⟩, rfl⟩
        · simp only [if_neg ha]
          constructor
          · rintro ⟨⟨_, he⟩ | ⟨hn1, _⟩, hn⟩
            · exact ⟨he, hn⟩
            · exact absurd (hn1.symm.trans hn) ha
          · rintro ⟨he, hn⟩
            exact ⟨Or.inl ⟨fun h1 => ha (h1.symm.trans hn), he⟩, hn⟩

theorem visitsByEquality_nonempty_key (es : List AgentConfigEntry) (k : AccountKey)
    (hk : k ≠ []) : visitsByEquality es k = visitsByIndex es k := by
  have h1 : initialEq k = initialIs k := by
    funext e
    cases hc : e.config with
    | none => simp [initialEq, initialIs, hc]
    | some cfg =>
      by_cases hkk : cfg.initialBudgetAccount = k
      · simp [initialEq, initialIs, hc, hkk, hk]
      · simp [initialEq, initialIs, hc, hkk]
  have h2 : profitEq k = profitIs k := by
    funext e
    cases hc : e.config with
    | none => simp [profitEq, profitIs, hc]
    | some cfg =>
      by_cases hkk : cfg.profitAccount = k
      · simp [profitEq, profitIs, hc, hkk, hk]
      · simp [profitEq, profitIs, hc, hkk]
  unfold visitsByEquality visitsByIndex
  rw [h1, h2]

/-! ## The claims -/

/-- C1: a list of CONFIG messages with empty or parseable payloads, applied one
after another to an empty snapshot, is applied without exception, and the
resulting current snapshot has an entry called a exactly when the last message
about a is an upsert (non-empty payload); the config of that entry is the one
decoded from that last message. -/
theorem last_message_decides (parse : String → Except String AgentConfig)
    (self0 : AgentConfigurationListener) (messages : List (List String))
    (h0 : self0.allAgents = some {})
    (hm : ∀ m ∈ messages, (deltaOf parse m).isSome = true) :
    ∃ self1 N, applyAll parse self0 messages = ⟨none, self1⟩ ∧ self1.allAgents = some N ∧
      ∀ a,
        ((∃ e ∈ N.entries, e.name = a) ↔ ∃ cfg, lastAbout parse a messages = some (some cfg)) ∧
        (∀ e ∈ N.entries, e.name = a →
          ∃ cfg, lastAbout parse a messages = some (some cfg) ∧ e.config = some cfg) := by
  obtain ⟨self1, N, hrun, hN, hchar⟩ :=
    applyAll_entries parse messages self0 {} h0 (by simp) hm
  refine ⟨self1, N, hrun, hN, fun a => ?_⟩
  have key : ∀ e ∈ N.entries, e.name = a →
      ∃ cfg, lastAbout parse a messages = some (some cfg) ∧ e.config = some cfg := by
    intro e he hn
    have := (hchar a e).mp ⟨he, hn⟩
    cases hl : lastAbout parse a messages with
    | none => simp [hl] at this
    | some r =>
      cases r with
      | none => simp [hl] at this
      | some cfg =>
        simp only [hl] at this
        exact ⟨cfg, rfl, by rw [this]⟩
  refine ⟨⟨?_, ?_⟩, key⟩
  · rintro ⟨e, he, hn⟩
    obtain ⟨cfg, hl, _⟩ := key e he hn
    exact ⟨cfg, hl⟩
  · rintro ⟨cfg, hl⟩
    have := (hchar a { name := a, config := some cfg }).mpr (by simp [hl])
    exact ⟨_, this.1, this.2⟩

theorem last_message_decides_witness :
    fresh.allAgents = some {} ∧
    (∀ m ∈ [["CONFIG", "A", "X"], ["CONFIG", "B", "Y"], ["CONFIG", "A", ""]],
      (deltaOf demoParse m).isSome = true) ∧
    (∃ self1 N,
      applyAll demoParse fresh [["CONFIG", "A", "X"], ["CONFIG", "B", "Y"], ["CONFIG", "A", ""]] =
        ⟨none, self1⟩ ∧
      self1.allAgents = some N ∧
      ∀ a,
        ((∃ e ∈ N.entries, e.name = a) ↔
          ∃ cfg, lastAbout demoParse a
            [["CONFIG", "A", "X"], ["CONFIG", "B", "Y"], ["CONFIG", "A", ""]] = some (some cfg)) ∧
        (∀ e ∈ N.entries, e.name = a →
          ∃ cfg, lastAbout demoParse a
            [["CONFIG", "A", "X"], ["CONFIG", "B", "Y"], ["CONFIG", "A", ""]] = some (some cfg) ∧
            e.config = some cfg)) :=
  ⟨rfl, by decide,
    last_message_decides demoParse fresh
      [["CONFIG", "A", "X"], ["CONFIG", "B", "Y"], ["CONFIG", "A", ""]] rfl (by decide)⟩

/-- C2: in every snapshot produced from the empty snapshot the names of the
entries are pairwise distinct, every position below the length is the value of
exactly one key of agentIndex, every pair (name, i) of agentIndex points at an
entry called name, and every name of an entry is a key of agentIndex. -/
theorem agentIndex_bijection (parse : String → Except String AgentConfig) (N : AllAgentConfig)
    (h : Produced parse N) :
    (N.entries.map AgentConfigEntry.name).Nodup ∧
    (∀ i, i < N.entries.length → ∃! n, mapFind N.agentIndex n = some i) ∧
    (∀ n i, mapFind N.agentIndex n = some i → ∃ e, N.entries[i]? = some e ∧ e.name = n) ∧
    (∀ e ∈ N.entries, ∃ i, mapFind N.agentIndex e.name = some i) := by
  have hc := produced_canonical parse N h
  refine ⟨hc.distinct, ?_, fun n i hf => agentIndex_sound N hc.indexed n i hf, ?_⟩
  · intro i hi
    have he : N.entries[i]? = some N.entries[i] := List.getElem?_eq_getElem hi
    refine ⟨N.entries[i].name, agentIndex_complete N hc i _ he, ?_⟩
    intro n hn
    obtain ⟨e, he1, hn1⟩ := agentIndex_sound N hc.indexed n i hn
    rw [he] at he1
    injection he1 with he1
    rw [← hn1, he1]
  · intro e he
    obtain ⟨i, hi⟩ := List.mem_iff_getElem?.mp he
    exact ⟨i, agentIndex_complete N hc i e hi⟩

theorem agentIndex_bijection_witness :
    Produced demoParse snapshotAB ∧
    ((snapshotAB.entries.map AgentConfigEntry.name).Nodup ∧
    (∀ i, i < snapshotAB.entries.length → ∃! n, mapFind snapshotAB.agentIndex n = some i) ∧
    (∀ n i, mapFind snapshotAB.agentIndex n = some i →
      ∃ e, snapshotAB.entries[i]? = some e ∧ e.name = n) ∧
    (∀ e ∈ snapshotAB.entries, ∃ i, mapFind snapshotAB.agentIndex e.name = some i)) := by
  have hp : Produced demoParse snapshotAB :=
    ⟨fresh, listenerAB, [["CONFIG", "A", "X"], ["CONFIG", "B", "Y"]], rfl, by decide, rfl⟩
  exact ⟨hp, agentIndex_bijection demoParse snapshotAB hp⟩

/-- C3: in every snapshot produced from the empty snapshot, and for every account
key k, the list stored under k in accountIndex (empty when k is not a key)
holds exactly the positions of the entries whose config has account k. -/
theorem accountIndex_exact (parse : String → Except String AgentConfig) (N : AllAgentConfig)
    (h : Produced parse N) (k : AccountKey) (i : Nat) :
    i ∈ (mapFind N.accountIndex k).getD [] ↔
      ∃ e cfg, N.entries[i]? = some e ∧ e.config = some cfg ∧ cfg.account = k :=
  accountIndex_mem N (produced_canonical parse N h).indexed k i

theorem accountIndex_exact_witness :
    Produced demoParse snapshotAB ∧
    (1 ∈ (mapFind snapshotAB.accountIndex ["y"]).getD [] ↔
      ∃ e cfg, snapshotAB.entries[1]? = some e ∧ e.config = some cfg ∧ cfg.account = ["y"]) := by
  have hp : Produced demoParse snapshotAB :=
    ⟨fresh, listenerAB, [["CONFIG", "A", "X"], ["CONFIG", "B", "Y"]], rfl, by decide, rfl⟩
  exact ⟨hp, accountIndex_exact demoParse snapshotAB hp ["y"] 1⟩

/-- C4: in every snapshot produced from the empty snapshot, for every non-empty
key k the list under k in initialAccountIndex (in profitAccountIndex) holds
exactly the positions of the entries whose initialBudgetAccount (profitAccount)
is k; an entry whose initialBudgetAccount (profitAccount) is empty is listed
under no key of that index; and the empty key is a key of neither index. -/
theorem optional_account_indexes_exact (parse : String → Except String AgentConfig)
    (N : AllAgentConfig) (h : Produced parse N) :
    (∀ k : AccountKey, k ≠ [] → ∀ i,
      (i ∈ (mapFind N.initialAccountIndex k).getD [] ↔
        ∃ e cfg, N.entries[i]? = some e ∧ e.config = some cfg ∧ cfg.initialBudgetAccount = k)) ∧
    (∀ k : AccountKey, k ≠ [] → ∀ i,
      (i ∈ (mapFind N.profitAccountIndex k).getD [] ↔
        ∃ e cfg, N.entries[i]? = some e ∧ e.config = some cfg ∧ cfg.profitAccount = k)) ∧
    (∀ i e cfg, N.entries[i]? = some e → e.config = some cfg → cfg.initialBudgetAccount = [] →
      ∀ k, i ∉ (mapFind N.initialAccountIndex k).getD []) ∧
    (∀ i e cfg, N.entries[i]? = some e → e.config = some cfg → cfg.profitAccount = [] →
      ∀ k, i ∉ (mapFind N.profitAccountIndex k).getD []) ∧
    mapFind N.initialAccountIndex [] = none ∧
    mapFind N.profitAccountIndex [] = none := by
  have hN := (produced_canonical parse N h).indexed
  refine ⟨?_, ?_, ?_, ?_, initialAccountIndex_empty_key N hN, profitAccountIndex_empty_key N hN⟩
  · intro k hk i
    rw [initialAccountIndex_mem N hN]
    constructor
    · rintro ⟨e, cfg, he, hc, _, hk1⟩
      exact ⟨e, cfg, he, hc, hk1⟩
    · rintro ⟨e, cfg, he, hc, hk1⟩
      exact ⟨e, cfg, he, hc, by rw [hk1]; exact hk, hk1⟩
  · intro k hk i
    rw [profitAccountIndex_mem N hN]
    constructor
    · rintro ⟨e, cfg, he, hc, _, hk1⟩
      exact ⟨e, cfg, he, hc, hk1⟩
    · rintro ⟨e, cfg, he, hc, hk1⟩
      exact ⟨e, cfg, he, hc, by rw [hk1]; exact hk, hk1⟩
  · intro i e cfg he hc hempty k hmem
    obtain ⟨e1, cfg1, he1, hc1, hne, _⟩ := (initialAccountIndex_mem N hN k i).mp hmem
    rw [he] at he1
    injection he1 with he1
    subst he1
    rw [hc] at hc1
    injection hc1 with hc1
    subst hc1
    exact hne hempty
  · intro i e cfg he hc hempty k hmem
    obtain ⟨e1, cfg1, he1, hc1, hne, _⟩ := (profitAccountIndex_mem N hN k i).mp hmem
    rw [he] at he1
    injection he1 with he1
    subst he1
    rw [hc] at hc1
    injection hc1 with hc1
    subst hc1
    exact hne hempty

theorem optional_account_indexes_exact_witness :
    Produced demoParse snapshotAB ∧
    ((∀ k : AccountKey, k ≠ [] → ∀ i,
      (i ∈ (mapFind snapshotAB.initialAccountIndex k).getD [] ↔
        ∃ e cfg, snapshotAB.entries[i]? = some e ∧ e.config = some cfg ∧
          cfg.initialBudgetAccount = k)) ∧
    (∀ k : AccountKey, k ≠ [] → ∀ i,
      (i ∈ (mapFind snapshotAB.profitAccountIndex k).getD [] ↔
        ∃ e cfg, snapshotAB.entries[i]? = some e ∧ e.config = some cfg ∧
          cfg.profitAccount = k)) ∧
    (∀ i e cfg, snapshotAB.entries[i]? = some e → e.config = some cfg →
      cfg.initialBudgetAccount = [] →
      ∀ k, i ∉ (mapFind snapshotAB.initialAccountIndex k).getD []) ∧
    (∀ i e cfg, snapshotAB.entries[i]? = some e → e.config = some cfg →
      cfg.profitAccount = [] →
      ∀ k, i ∉ (mapFind snapshotAB.profitAccountIndex k).getD []) ∧
    mapFind snapshotAB.initialAccountIndex [] = none ∧
    mapFind snapshotAB.profitAccountIndex [] = none) := by
  have hp : Produced demoParse snapshotAB :=
    ⟨fresh, listenerAB, [["CONFIG", "A", "X"], ["CONFIG", "B", "Y"]], rfl, by decide, rfl⟩
  exact ⟨hp, optional_account_indexes_exact demoParse snapshotAB hp⟩

/-- C5, as stated, fails: after the single upsert of agent A with account x and
no initialBudgetAccount, no entry has the empty key as its account and the
entry A has an initialBudgetAccount equal to the empty key, so the claim has
forEachAccountAgent visit A for the empty key; the code visits nothing. -/
theorem forEachAccountAgent_empty_key_counterexample :
    Produced demoParse snapshotA ∧ listenerA.allAgents = some snapshotA ∧
    snapshotA.entries.any (accountIs []) = false ∧
    snapshotA.entries.any (initialEq []) = true ∧
    visitsByEquality snapshotA.entries [] = [entryA] ∧
    forEachAccountAgent listenerA [] = .ok [] ∧
    forEachAccountAgent listenerA [] ≠ .ok (visitsByEquality snapshotA.entries []) := by
  have hv : visitsByEquality snapshotA.entries [] = [entryA] := by decide
  have hf : forEachAccountAgent listenerA [] = .ok [] := rfl
  refine ⟨⟨fresh, listenerA, [["CONFIG", "A", "X"]], rfl, by decide, rfl⟩, rfl, by decide,
    by decide, hv, hf, ?_⟩
  rw [hv, hf]
  intro h
  cases h

/-- C5, amended: on every snapshot produced from the empty snapshot and for every
key k, forEachAccountAgent never fails and visits, in sequence order, exactly
the entries with account k if there is one; otherwise exactly the entries with
a non-empty initialBudgetAccount equal to k if there is one; otherwise exactly
the entries with a non-empty profitAccount equal to k; and nothing when there
is none.  For a non-empty k this is the rule read with plain equality. -/
theorem forEachAccountAgent_fallback (parse : String → Except String AgentConfig)
    (self : AgentConfigurationListener) (N : AllAgentConfig)
    (hs : self.allAgents = some N) (h : Produced parse N) (k : AccountKey) :
    forEachAccountAgent self k = .ok
      (if N.entries.any (accountIs k) then N.entries.filter (accountIs k)
       else if N.entries.any (initialIs k) then N.entries.filter (initialIs k)
       else if N.entries.any (profitIs k) then N.entries.filter (profitIs k)
       else []) ∧
    (k ≠ [] → forEachAccountAgent self k = .ok (visitsByEquality N.entries k)) := by
  have hf := forEachAccountAgent_indexed self N hs (produced_canonical parse N h).indexed k
  refine ⟨hf, fun hk => ?_⟩
  rw [visitsByEquality_nonempty_key N.entries k hk]
  exact hf

theorem forEachAccountAgent_fallback_witness :
    listenerAB.allAgents = some snapshotAB ∧ Produced demoParse snapshotAB ∧
    (forEachAccountAgent listenerAB ["x"] = .ok
      (if snapshotAB.entries.any (accountIs ["x"]) then snapshotAB.entries.filter (accountIs ["x"])
       else if snapshotAB.entries.any (initialIs ["x"]) then
         snapshotAB.entries.filter (initialIs ["x"])
       else if snapshotAB.entries.any (profitIs ["x"]) then
         snapshotAB.entries.filter (profitIs ["x"])
       else []) ∧
    (["x"] ≠ [] →
      forEachAccountAgent listenerAB ["x"] = .ok (visitsByEquality snapshotAB.entries ["x"]))) :=
  ⟨rfl, ⟨fresh, listenerAB, [["CONFIG", "A", "X"], ["CONFIG", "B", "Y"]], rfl, by decide, rfl⟩,
    forEachAccountAgent_fallback demoParse listenerAB snapshotAB rfl
      ⟨fresh, listenerAB, [["CONFIG", "A", "X"], ["CONFIG", "B", "Y"]], rfl, by decide, rfl⟩ ["x"]⟩

/-- C6: on every snapshot produced from the empty snapshot, getAgentEntry returns
the entry of the sequence called name when there is one, and the
default-constructed entry (empty name, null config) when no entry has that
name. -/
theorem getAgentEntry_lookup (parse : String → Except String AgentConfig)
    (self : AgentConfigurationListener) (N : AllAgentConfig)
    (hs : self.allAgents = some N) (h : Produced parse N) (agent : String) :
    (∀ e ∈ N.entries, e.name = agent → getAgentEntry self agent = .ok e) ∧
    ((∀ e ∈ N.entries, e.name ≠ agent) →
      getAgentEntry self agent = .ok { name := "", config := none }) := by
  have hc := produced_canonical parse N h
  constructor
  · intro e he hn
    rw [← hn]
    exact getAgentEntry_present self N hs hc e he
  · intro habs
    exact getAgentEntry_absent self N hs hc.indexed agent habs

theorem getAgentEntry_lookup_witness :
    listenerAB.allAgents = some snapshotAB ∧ Produced demoParse snapshotAB ∧
    ((∀ e ∈ snapshotAB.entries, e.name = "B" → getAgentEntry listenerAB "B" = .ok e) ∧
    ((∀ e ∈ snapshotAB.entries, e.name ≠ "B") →
      getAgentEntry listenerAB "B" = .ok { name := "", config := none })) :=
  ⟨rfl, ⟨fresh, listenerAB, [["CONFIG", "A", "X"], ["CONFIG", "B", "Y"]], rfl, by decide, rfl⟩,
    getAgentEntry_lookup demoParse listenerAB snapshotAB rfl
      ⟨fresh, listenerAB, [["CONFIG", "A", "X"], ["CONFIG", "B", "Y"]], rfl, by decide, rfl⟩ "B"⟩

/-- C7: for a prior snapshot P whose entries have pairwise distinct names (and,
as every entry of a snapshot, a config), an agent name and an optional config,
onMessage installs a snapshot N whose entry sequence is: (i) P with the entry
called agent replaced, at the same position, by the entry (agent, config), the
length unchanged, when agent is in P and the config is present; (ii) P with
the entry called agent removed and the others kept in order, when agent is in
P and the config is absent; (iii) P followed by the new entry (agent, config)
when agent is not in P and the config is present. -/
theorem onMessage_entry_sequence (parse : String → Except String AgentConfig)
    (self : AgentConfigurationListener) (P : AllAgentConfig) (agent configStr : String)
    (config : Option AgentConfig) (hs : self.allAgents = some P)
    (hcfg : ∀ e ∈ P.entries, e.config ≠ none)
    (hd : (P.entries.map AgentConfigEntry.name).Nodup)
    (hdec : decodeConfig parse configStr = .ok config) :
    ∃ self1 N, onMessage parse none self ["CONFIG", agent, configStr] = ⟨none, self1⟩ ∧
      self1.allAgents = some N ∧
      (∀ i e cfg, P.entries[i]? = some e → e.name = agent → config = some cfg →
        N.entries = P.entries.set i { name := agent, config := some cfg } ∧
        N.entries.length = P.entries.length) ∧
      (∀ i e, P.entries[i]? = some e → e.name = agent → config = none →
        N.entries = P.entries.eraseIdx i) ∧
      ((∀ e ∈ P.entries, e.name ≠ agent) → ∀ cfg, config = some cfg →
        N.entries = P.entries ++ [{ name := agent, config := some cfg }]) := by
  obtain ⟨N, hb⟩ := buildNewConfig_isOk P agent config hcfg
  obtain ⟨_, hent, _⟩ := buildNewConfig_indexed P N agent config hb
  refine ⟨_, N, onMessage_step parse self _ agent configStr config P N rfl rfl rfl hdec hs hb,
    rfl, ?_, ?_, ?_⟩
  · intro i e cfg hi hn hc
    subst hc
    have hset : N.entries = P.entries.set i { name := agent, config := some cfg } := by
      rw [hent, nextEntries_upsert_present agent cfg P.entries e (List.getElem?_mem hi) hn]
      exact map_eq_set agent cfg P.entries hd i e hi hn
    exact ⟨hset, by rw [hset, List.length_set]⟩
  · intro i e hi hn hc
    subst hc
    rw [hent, nextEntries_tombstone]
    exact filter_eq_eraseIdx agent P.entries hd i e hi hn
  · intro habs cfg hc
    subst hc
    rw [hent]
    exact nextEntries_upsert_absent agent cfg P.entries habs

theorem onMessage_entry_sequence_witness :
    listenerAB.allAgents = some snapshotAB ∧
    (∀ e ∈ snapshotAB.entries, e.config ≠ none) ∧
    (snapshotAB.entries.map AgentConfigEntry.name).Nodup ∧
    decodeConfig demoParse "Y" = .ok (some cfgY) ∧
    (∃ self1 N, onMessage demoParse none listenerAB ["CONFIG", "A", "Y"] = ⟨none, self1⟩ ∧
      self1.allAgents = some N ∧
      (∀ i e cfg, snapshotAB.entries[i]? = some e → e.name = "A" → some cfgY = some cfg →
        N.entries = snapshotAB.entries.set i { name := "A", config := some cfg } ∧
        N.entries.length = snapshotAB.entries.length) ∧
      (∀ i e, snapshotAB.entries[i]? = some e → e.name = "A" → some cfgY = none →
        N.entries = snapshotAB.entries.eraseIdx i) ∧
      ((∀ e ∈ snapshotAB.entries, e.name ≠ "A") → ∀ cfg, some cfgY = some cfg →
        N.entries = snapshotAB.entries ++ [{ name := "A", config := some cfg }])) :=
  ⟨rfl, by decide, by decide, rfl,
    onMessage_entry_sequence demoParse listenerAB snapshotAB "A" "Y" (some cfgY) rfl
      (by decide) (by decide) rfl⟩

/-- C8: when P is a snapshot produced from the empty snapshot and no entry of P is
called agent, the tombstone for agent installs a snapshot equal to P: the same
entry sequence and the same four indexes. -/
theorem tombstone_absent_same_snapshot (parse : String → Except String AgentConfig)
    (self : AgentConfigurationListener) (P : AllAgentConfig) (agent : String)
    (hs : self.allAgents = some P) (h : Produced parse P)
    (habs : ∀ e ∈ P.entries, e.name ≠ agent) :
    ∃ self1, onMessage parse none self ["CONFIG", agent, ""] = ⟨none, self1⟩ ∧
      self1.allAgents = some P := by
  have hc := produced_canonical parse P h
  have hb : buildNewConfig P agent none = .ok P := by
    rw [buildNewConfig_eq, nextEntries_tombstone_absent agent P.entries habs]
    exact hc.rebuilt
  exact ⟨_, onMessage_step parse self _ agent "" none P P rfl rfl rfl (decodeConfig_empty parse)
    hs hb, rfl⟩

theorem tombstone_absent_same_snapshot_witness :
    listenerAB.allAgents = some snapshotAB ∧ Produced demoParse snapshotAB ∧
    (∀ e ∈ snapshotAB.entries, e.name ≠ "C") ∧
    (∃ self1, onMessage demoParse none listenerAB ["CONFIG", "C", ""] = ⟨none, self1⟩ ∧
      self1.allAgents = some snapshotAB) :=
  ⟨rfl, ⟨fresh, listenerAB, [["CONFIG", "A", "X"], ["CONFIG", "B", "Y"]], rfl, by decide, rfl⟩,
    by decide,
    tombstone_absent_same_snapshot demoParse listenerAB snapshotAB "C" rfl
      ⟨fresh, listenerAB, [["CONFIG", "A", "X"], ["CONFIG", "B", "Y"]], rfl, by decide, rfl⟩
      (by decide)⟩

/-- C9: when the tombstone for agent has been applied to any listener, applying
the same tombstone again succeeds and installs a snapshot equal to the one the
first application installed (entry sequence and all four indexes). -/
theorem tombstone_idempotent (parse : String → Except String AgentConfig)
    (self self1 : AgentConfigurationListener) (agent : String)
    (h : onMessage parse none self ["CONFIG", agent, ""] = ⟨none, self1⟩) :
    ∃ self2 N, onMessage parse none self1 ["CONFIG", agent, ""] = ⟨none, self2⟩ ∧
      self1.allAgents = some N ∧ self2.allAgents = some N := by
  rcases onMessage_inv parse self self1 _ h with ⟨_, topic, ht, hne⟩ |
    ⟨agent1, configStr, config, ac, N, _, h1, h2, hdec, _, hb, hN, _⟩
  · simp at ht
    exact absurd ht.symm hne
  · simp at h1 h2
    subst h1 h2
    rw [decodeConfig_empty] at hdec
    injection hdec with hdec
    subst hdec
    obtain ⟨_, hent, hre⟩ := buildNewConfig_indexed ac N agent none hb
    have hb2 : buildNewConfig N agent none = .ok N := by
      rw [buildNewConfig_eq, nextEntries_tombstone, hent, nextEntries_tombstone,
        List.filter_filter]
      rw [hent, nextEntries_tombstone] at hre
      simpa using hre
    exact ⟨_, N, onMessage_step parse self1 _ agent "" none N N rfl rfl rfl
      (decodeConfig_empty parse) hN hb2, hN, rfl⟩

theorem tombstone_idempotent_witness :
    onMessage demoParse none listenerAB ["CONFIG", "B", ""] =
      ⟨none, { allAgents := some snapshotA, allAgentsGc := [{}, snapshotA, snapshotAB] }⟩ ∧
    (∃ self2 N,
      onMessage demoParse none
        { allAgents := some snapshotA, allAgentsGc := [{}, snapshotA, snapshotAB] }
        ["CONFIG", "B", ""] = ⟨none, self2⟩ ∧
      (some snapshotA : Option AllAgentConfig) = some N ∧ self2.allAgents = some N) :=
  ⟨by decide,
    tombstone_idempotent demoParse listenerAB
      { allAgents := some snapshotA, allAgentsGc := [{}, snapshotA, snapshotAB] } "B"
      (by decide)⟩

/-- C10: in the snapshot installed by onMessage for a CONFIG message, whatever the
prior snapshot, the list stored under any key of accountIndex,
initialAccountIndex or profitAccountIndex has pairwise distinct elements. -/
theorem index_lists_distinct (parse : String → Except String AgentConfig)
    (self self1 : AgentConfigurationListener) (message : List String)
    (h0 : message[0]? = some "CONFIG")
    (h : onMessage parse none self message = ⟨none, self1⟩) :
    ∃ N, self1.allAgents = some N ∧
      ∀ (k : AccountKey) (l : List Nat),
        (mapFind N.accountIndex k = some l → l.Nodup) ∧
        (mapFind N.initialAccountIndex k = some l → l.Nodup) ∧
        (mapFind N.profitAccountIndex k = some l → l.Nodup) := by
  rcases onMessage_inv parse self self1 message h with ⟨_, topic, ht, hne⟩ |
    ⟨agent, configStr, config, ac, N, _, _, _, _, _, hb, hN, _⟩
  · rw [h0] at ht
    injection ht with ht
    exact absurd ht.symm hne
  · obtain ⟨hi, _, _⟩ := buildNewConfig_indexed ac N agent config hb
    refine ⟨N, hN, fun k l => ⟨?_, ?_, ?_⟩⟩
    · intro hf
      rw [hi.account] at hf
      rw [listOrNone_eq_some _ _ hf]
      exact positionsFrom_nodup _ _ _
    · intro hf
      rw [hi.initial] at hf
      rw [listOrNone_eq_some _ _ hf]
      exact positionsFrom_nodup _ _ _
    · intro hf
      rw [hi.profit] at hf
      rw [listOrNone_eq_some _ _ hf]
      exact positionsFrom_nodup _ _ _

theorem index_lists_distinct_witness :
    (["CONFIG", "B", "Y"] : List String)[0]? = some "CONFIG" ∧
    onMessage demoParse none listenerA ["CONFIG", "B", "Y"] = ⟨none, listenerAB⟩ ∧
    (∃ N, listenerAB.allAgents = some N ∧
      ∀ (k : AccountKey) (l : List Nat),
        (mapFind N.accountIndex k = some l → l.Nodup) ∧
        (mapFind N.initialAccountIndex k = some l → l.Nodup) ∧
        (mapFind N.profitAccountIndex k = some l → l.Nodup)) :=
  ⟨rfl, by decide,
    index_lists_distinct demoParse listenerA listenerAB ["CONFIG", "B", "Y"] rfl (by decide)⟩

/-! ## The claims on the outcome of a call -/

theorem onMessage_lost_exchange (parse : String → Except String AgentConfig)
    (self : AgentConfigurationListener) (message : List String)
    (agent configStr : String) (config : Option AgentConfig) (ac N : AllAgentConfig)
    (other : Option AllAgentConfig)
    (h0 : message[0]? = some "CONFIG") (h1 : message[1]? = some agent)
    (h2 : message[2]? = some configStr) (hd : decodeConfig parse configStr = .ok config)
    (hac : self.allAgents = some ac) (hb : buildNewConfig ac agent config = .ok N) :
    onMessage parse (some other) self message =
      ⟨some .cmpXchgFailed, { self with allAgents := other }⟩ := by
  unfold onMessage vectorAt
  simp only [h0, h1, h2, hd, hac, hb]
  simp

/-- C11: a CONFIG message whose payload is empty or parses, processed with no
competing writer on a listener holding a snapshot, returns normally; the
snapshot built from the old one is installed, the old one is handed to the
deferred deletion, and the callback, when set, is called exactly once more,
with the agent name and the config (absent for an empty payload); when the
callback is unset no call is recorded.  This holds for every delta, redundant
or not. -/
theorem onMessage_installs_and_notifies (parse : String → Except String AgentConfig)
    (self : AgentConfigurationListener) (P : AllAgentConfig)
    (agent configStr : String) (rest : List String) (config : Option AgentConfig)
    (hs : self.allAgents = some P) (hcfg : ∀ e ∈ P.entries, e.config ≠ none)
    (hdec : decodeConfig parse configStr = .ok config) :
    ∃ N, buildNewConfig P agent config = .ok N ∧
      onMessage parse none self ("CONFIG" :: agent :: configStr :: rest) =
        ⟨none, { allAgents := some N
                 allAgentsGc := self.allAgentsGc ++ [P]
                 onConfigChange := self.onConfigChange
                 configChanges :=
                   if self.onConfigChange then self.configChanges ++ [(agent, config)]
                   else self.configChanges }⟩ ∧
      (configStr = "" → config = none) := by
  obtain ⟨N, hb⟩ := buildNewConfig_isOk P agent config hcfg
  refine ⟨N, hb, onMessage_step parse self _ agent configStr config P N (by simp) (by simp)
    (by simp) hdec hs hb, ?_⟩
  intro he
  subst he
  rw [decodeConfig_empty] at hdec
  injection hdec with hdec
  exact hdec.symm

theorem onMessage_installs_and_notifies_witness :
    notifyingA.allAgents = some snapshotA ∧
    (∀ e ∈ snapshotA.entries, e.config ≠ none) ∧
    decodeConfig demoParse "" = .ok none ∧
    (∃ N, buildNewConfig snapshotA "C" none = .ok N ∧
      onMessage demoParse none notifyingA ("CONFIG" :: "C" :: "" :: []) =
        ⟨none, { allAgents := some N
                 allAgentsGc := notifyingA.allAgentsGc ++ [snapshotA]
                 onConfigChange := notifyingA.onConfigChange
                 configChanges :=
                   if notifyingA.onConfigChange then notifyingA.configChanges ++ [("C", none)]
                   else notifyingA.configChanges }⟩ ∧
      (("" : String) = "" → (none : Option AgentConfig) = none)) :=
  ⟨rfl, by decide, rfl,
    onMessage_installs_and_notifies demoParse notifyingA snapshotA "C" "" [] none rfl
      (by decide) rfl⟩

/-- C12: a message whose first field is not CONFIG makes onMessage return
normally with the listener unchanged (current snapshot, deferred deletions,
callback calls), whatever the other fields are and however many; the call
returns before it reads the current pointer, so `competing` plays no part. -/
theorem onMessage_unknown_topic (parse : String → Except String AgentConfig)
    (competing : Option (Option AllAgentConfig)) (self : AgentConfigurationListener)
    (topic : String) (rest : List String) (ht : topic ≠ "CONFIG") :
    onMessage parse competing self (topic :: rest) = ⟨none, self⟩ := by
  simp [onMessage, vectorAt, ht]

theorem onMessage_unknown_topic_witness :
    ("STATUS" : String) ≠ "CONFIG" ∧
    onMessage demoParse none listenerAB ("STATUS" :: ["A", "X", "more"]) = ⟨none, listenerAB⟩ :=
  ⟨by decide, onMessage_unknown_topic demoParse none listenerAB "STATUS" ["A", "X", "more"]
    (by decide)⟩

/-- C13: a CONFIG message whose non-empty payload is rejected by the parser makes
onMessage leave with the parser failure, the listener being unchanged: same
current snapshot, nothing more handed to the deferred deletion, no callback
call.  The parser runs before the current pointer is read, so `competing`
plays no part. -/
theorem onMessage_parse_failure (parse : String → Except String AgentConfig)
    (competing : Option (Option AllAgentConfig)) (self : AgentConfigurationListener)
    (agent configStr what : String) (rest : List String)
    (hne : configStr ≠ "") (hp : parse configStr = .error what) :
    onMessage parse competing self ("CONFIG" :: agent :: configStr :: rest) =
      ⟨some (.parseFailure what), self⟩ := by
  simp [onMessage, vectorAt, decodeConfig, hne, hp]

theorem onMessage_parse_failure_witness :
    ("Z" : String) ≠ "" ∧ demoParse "Z" = .error "parse error" ∧
    onMessage demoParse none listenerAB ("CONFIG" :: "A" :: "Z" :: []) =
      ⟨some (.parseFailure "parse error"), listenerAB⟩ :=
  ⟨by decide, rfl,
    onMessage_parse_failure demoParse none listenerAB "A" "Z" "parse error" [] (by decide) rfl⟩

/-- C14: when the current snapshot pointer is null, getAgentEntry returns the
default-constructed entry for every name, forEachAgent visits nothing and
forEachAccountAgent visits nothing for every key; none of them fails. -/
theorem readers_on_null_snapshot (self : AgentConfigurationListener)
    (h : self.allAgents = none) :
    (∀ agent, getAgentEntry self agent = .ok { name := "", config := none }) ∧
    forEachAgent self = [] ∧
    (∀ account, forEachAccountAgent self account = .ok []) := by
  refine ⟨fun agent => ?_, ?_, fun account => ?_⟩
  · simp [getAgentEntry, h]
  · simp [forEachAgent, h]
  · simp [forEachAccountAgent, h]

theorem readers_on_null_snapshot_witness :
    unpublished.allAgents = none ∧
    ((∀ agent, getAgentEntry unpublished agent = .ok { name := "", config := none }) ∧
    forEachAgent unpublished = [] ∧
    (∀ account, forEachAccountAgent unpublished account = .ok [])) :=
  ⟨rfl, readers_on_null_snapshot unpublished rfl⟩

theorem onMessage_null (parse : String → Except String AgentConfig)
    (competing : Option (Option AllAgentConfig)) (self : AgentConfigurationListener)
    (agent configStr : String) (rest : List String) (config : Option AgentConfig)
    (hs : self.allAgents = none) (hdec : decodeConfig parse configStr = .ok config) :
    onMessage parse competing self ("CONFIG" :: agent :: configStr :: rest) =
      ⟨some .nullDereference, self⟩ := by
  simp [onMessage, vectorAt, hdec, hs]

/-- C16, as stated, fails: on a listener whose current pointer is null, the upsert
of agent A with a parseable payload does not complete and does not install
the snapshot made of the single entry (A, config); the loop of line 113 runs
over the null snapshot, and the call ends there with the pointer still
null. -/
theorem onMessage_null_current_counterexample :
    unpublished.allAgents = none ∧ decodeConfig demoParse "X" = .ok (some cfgX) ∧
    onMessage demoParse none unpublished ["CONFIG", "A", "X"] =
      ⟨some .nullDereference, unpublished⟩ ∧
    (onMessage demoParse none unpublished ["CONFIG", "A", "X"]).raised ≠ none ∧
    (onMessage demoParse none unpublished ["CONFIG", "A", "X"]).state.allAgents ≠
      some { entries := [entryA]
             agentIndex := [("A", 0)]
             accountIndex := [(["x"], [0])]
             initialAccountIndex := []
             profitAccountIndex := [] } :=
  ⟨rfl, rfl, by decide, by decide, by decide⟩

/-- C16, amended: on a listener whose current snapshot is the empty snapshot (a
snapshot with no entry, not a null pointer), the upsert of agent A with a
parseable payload returns normally and installs a snapshot whose entry
sequence is the single entry (A, config), with A at position 0 in agentIndex
and position 0 listed under the account of the config; the empty snapshot it
replaces is handed to the deferred deletion. -/
theorem onMessage_first_upsert (parse : String → Except String AgentConfig)
    (self : AgentConfigurationListener) (agent payload : String) (cfg : AgentConfig)
    (hs : self.allAgents = some {}) (hne : payload ≠ "") (hp : parse payload = .ok cfg) :
    ∃ self1 N, onMessage parse none self ["CONFIG", agent, payload] = ⟨none, self1⟩ ∧
      self1.allAgents = some N ∧
      N.entries = [{ name := agent, config := some cfg }] ∧
      mapFind N.agentIndex agent = some 0 ∧
      (∀ n i, mapFind N.agentIndex n = some i → n = agent ∧ i = 0) ∧
      mapFind N.accountIndex cfg.account = some [0] ∧
      self1.allAgentsGc = self.allAgentsGc ++ [({} : AllAgentConfig)] := by
  have hdec : decodeConfig parse payload = .ok (some cfg) := by
    simp [decodeConfig, hne, hp]
  obtain ⟨N, hb⟩ := buildNewConfig_isOk {} agent (some cfg) (by simp)
  obtain ⟨hcN, hent⟩ := buildNewConfig_canonical {} N agent (some cfg) (by simp) hb
  have hent1 : N.entries = [{ name := agent, config := some cfg }] := by
    rw [hent]
    exact nextEntries_upsert_absent agent cfg [] (by simp)
  have h0 : N.entries[0]? = some { name := agent, config := some cfg } := by
    rw [hent1]
    rfl
  refine ⟨_, N, onMessage_step parse self _ agent payload (some cfg) {} N rfl rfl rfl hdec hs hb,
    rfl, hent1, agentIndex_complete N hcN 0 _ h0, ?_, ?_, rfl⟩
  · intro n i hf
    obtain ⟨e, he, hn⟩ := agentIndex_sound N hcN.indexed n i hf
    rw [hent1] at he
    cases i with
    | zero =>
      simp at he
      subst he
      exact ⟨hn.symm, rfl⟩
    | succ j => simp at he
  · rw [hcN.indexed.account, hent1]
    simp [positionsFrom, accountIs, listOrNone]

theorem onMessage_first_upsert_witness :
    fresh.allAgents = some {} ∧ ("X" : String) ≠ "" ∧ demoParse "X" = .ok cfgX ∧
    (∃ self1 N, onMessage demoParse none fresh ["CONFIG", "A", "X"] = ⟨none, self1⟩ ∧
      self1.allAgents = some N ∧
      N.entries = [{ name := "A", config := some cfgX }] ∧
      mapFind N.agentIndex "A" = some 0 ∧
      (∀ n i, mapFind N.agentIndex n = some i → n = "A" ∧ i = 0) ∧
      mapFind N.accountIndex cfgX.account = some [0] ∧
      self1.allAgentsGc = fresh.allAgentsGc ++ [({} : AllAgentConfig)]) :=
  ⟨rfl, by decide, rfl, onMessage_first_upsert demoParse fresh "A" "X" cfgX rfl (by decide) rfl⟩

/-- C17: on a snapshot produced from the empty snapshot, a CONFIG message about
agent a (upsert or tombstone) leaves every other name b as it was:
getAgentEntry for b returns the same entry after the message as before it, and
b is present afterwards exactly when it was present before. -/
theorem other_agents_untouched (parse : String → Except String AgentConfig)
    (self : AgentConfigurationListener) (P : AllAgentConfig)
    (a configStr b : String) (config : Option AgentConfig)
    (hs : self.allAgents = some P) (h : Produced parse P)
    (hdec : decodeConfig parse configStr = .ok config) (hb : b ≠ a) :
    ∃ self1 N, onMessage parse none self ["CONFIG", a, configStr] = ⟨none, self1⟩ ∧
      self1.allAgents = some N ∧
      getAgentEntry self1 b = getAgentEntry self b ∧
      ((∃ e ∈ N.entries, e.name = b) ↔ (∃ e ∈ P.entries, e.name = b)) := by
  have hc := produced_canonical parse P h
  obtain ⟨N, hbuild⟩ := buildNewConfig_isOk P a config hc.indexed.configs
  obtain ⟨hcN, hent⟩ := buildNewConfig_canonical P N a config hc.distinct hbuild
  have hmem : ∀ e, e.name = b → (e ∈ N.entries ↔ e ∈ P.entries) := by
    intro e hn
    rw [hent, mem_nextEntries]
    constructor
    · rintro (⟨_, he⟩ | ⟨hna, _⟩)
      · exact he
      · exact absurd (hn.symm.trans hna) hb
    · intro he
      exact Or.inl ⟨fun hna => hb (hn.symm.trans hna), he⟩
  obtain ⟨self1, hstep, hs1⟩ :
      ∃ self1, onMessage parse none self ["CONFIG", a, configStr] = ⟨none, self1⟩ ∧
        self1.allAgents = some N :=
    ⟨_, onMessage_step parse self _ a configStr config P N rfl rfl rfl hdec hs hbuild, rfl⟩
  refine ⟨self1, N, hstep, hs1, ?_, ?_⟩
  · by_cases hex : ∃ e ∈ P.entries, e.name = b
    · obtain ⟨e, he, hn⟩ := hex
      rw [← hn, getAgentEntry_present self1 N hs1 hcN e ((hmem e hn).mpr he),
        getAgentEntry_present self P hs hc e he]
    · push_neg at hex
      rw [getAgentEntry_absent self P hs hc.indexed b hex,
        getAgentEntry_absent self1 N hs1 hcN.indexed b
          (fun e he hn => hex e ((hmem e hn).mp he) hn)]
  · constructor
    · rintro ⟨e, he, hn⟩
      exact ⟨e, (hmem e hn).mp he, hn⟩
    · rintro ⟨e, he, hn⟩
      exact ⟨e, (hmem e hn).mpr he, hn⟩

theorem other_agents_untouched_witness :
    listenerAB.allAgents = some snapshotAB ∧ Produced demoParse snapshotAB ∧
    decodeConfig demoParse "" = .ok none ∧ ("B" : String) ≠ "A" ∧
    (∃ self1 N, onMessage demoParse none listenerAB ["CONFIG", "A", ""] = ⟨none, self1⟩ ∧
      self1.allAgents = some N ∧
      getAgentEntry self1 "B" = getAgentEntry listenerAB "B" ∧
      ((∃ e ∈ N.entries, e.name = "B") ↔ (∃ e ∈ snapshotAB.entries, e.name = "B"))) :=
  ⟨rfl, ⟨fresh, listenerAB, [["CONFIG", "A", "X"], ["CONFIG", "B", "Y"]], rfl, by decide, rfl⟩,
    rfl, by decide,
    other_agents_untouched demoParse listenerAB snapshotAB "A" "" "B" none rfl
      ⟨fresh, listenerAB, [["CONFIG", "A", "X"], ["CONFIG", "B", "Y"]], rfl, by decide, rfl⟩
      rfl (by decide)⟩

/-- C18: when the call has built its new snapshot N and another writer has
replaced the current pointer in the meantime, onMessage leaves with the
compare-and-exchange failure: the current pointer is the one the other writer
stored, N is not installed, nothing more is handed to the deferred deletion
and the callback is not called.  With no other writer the call returns
normally and N is the current snapshot. -/
theorem lost_exchange_raises (parse : String → Except String AgentConfig)
    (self : AgentConfigurationListener) (P N : AllAgentConfig)
    (agent configStr : String) (config : Option AgentConfig) (other : Option AllAgentConfig)
    (hs : self.allAgents = some P) (hdec : decodeConfig parse configStr = .ok config)
    (hb : buildNewConfig P agent config = .ok N) :
    onMessage parse (some other) self ["CONFIG", agent, configStr] =
      ⟨some .cmpXchgFailed,
        { allAgents := other
          allAgentsGc := self.allAgentsGc
          onConfigChange := self.onConfigChange
          configChanges := self.configChanges }⟩ ∧
    (onMessage parse none self ["CONFIG", agent, configStr]).raised = none ∧
    (onMessage parse none self ["CONFIG", agent, configStr]).state.allAgents = some N := by
  refine ⟨onMessage_lost_exchange parse self _ agent configStr config P N other rfl rfl rfl
    hdec hs hb, ?_, ?_⟩
  · rw [onMessage_step parse self _ agent configStr config P N rfl rfl rfl hdec hs hb]
  · rw [onMessage_step parse self _ agent configStr config P N rfl rfl rfl hdec hs hb]

theorem lost_exchange_raises_witness :
    notifyingA.allAgents = some snapshotA ∧ decodeConfig demoParse "Y" = .ok (some cfgY) ∧
    buildNewConfig snapshotA "B" (some cfgY) = .ok snapshotAB ∧
    (onMessage demoParse (some (some {})) notifyingA ["CONFIG", "B", "Y"] =
      ⟨some .cmpXchgFailed,
        { allAgents := some {}
          allAgentsGc := notifyingA.allAgentsGc
          onConfigChange := notifyingA.onConfigChange
          configChanges := notifyingA.configChanges }⟩ ∧
    (onMessage demoParse none notifyingA ["CONFIG", "B", "Y"]).raised = none ∧
    (onMessage demoParse none notifyingA ["CONFIG", "B", "Y"]).state.allAgents =
      some snapshotAB) :=
  ⟨rfl, rfl, rfl,
    lost_exchange_raises demoParse notifyingA snapshotA snapshotAB "B" "Y" (some cfgY) (some {})
      rfl rfl rfl⟩

/-- C19: in the snapshot installed by onMessage for a CONFIG message, whatever the
prior snapshot, every position stored in agentIndex, or in a list of
accountIndex, initialAccountIndex or profitAccountIndex, is below the length
of the entry sequence; so getAgentEntry and forEachAccountAgent on that
snapshot return a result and never an out-of-range failure. -/
theorem stored_positions_in_range (parse : String → Except String AgentConfig)
    (self self1 : AgentConfigurationListener) (message : List String)
    (h0 : message[0]? = some "CONFIG")
    (h : onMessage parse none self message = ⟨none, self1⟩) :
    ∃ N, self1.allAgents = some N ∧
      (∀ n i, mapFind N.agentIndex n = some i → i < N.entries.length) ∧
      (∀ (k : AccountKey) l i, mapFind N.accountIndex k = some l → i ∈ l →
        i < N.entries.length) ∧
      (∀ (k : AccountKey) l i, mapFind N.initialAccountIndex k = some l → i ∈ l →
        i < N.entries.length) ∧
      (∀ (k : AccountKey) l i, mapFind N.profitAccountIndex k = some l → i ∈ l →
        i < N.entries.length) ∧
      (∀ agent, ∃ e, getAgentEntry self1 agent = .ok e) ∧
      (∀ account, ∃ visited, forEachAccountAgent self1 account = .ok visited) := by
  rcases onMessage_inv parse self self1 message h with ⟨_, topic, ht, hne⟩ |
    ⟨agent, configStr, config, ac, N, _, _, _, _, _, hb, hN, _⟩
  · rw [h0] at ht
    injection ht with ht
    exact absurd ht.symm hne
  · obtain ⟨hi, _, _⟩ := buildNewConfig_indexed ac N agent config hb
    have hlt : ∀ (i : Nat) (e : AgentConfigEntry), N.entries[i]? = some e →
        i < N.entries.length := by
      intro i e he
      rcases List.getElem?_eq_some_iff.mp he with ⟨hlt, _⟩
      exact hlt
    refine ⟨N, hN, ?_, ?_, ?_, ?_, ?_, ?_⟩
    · intro n i hf
      obtain ⟨e, he, _⟩ := agentIndex_sound N hi n i hf
      exact hlt i e he
    · intro k l i hf hmem
      have hm : i ∈ (mapFind N.accountIndex k).getD [] := by simpa [hf] using hmem
      obtain ⟨e, _, he, _⟩ := (accountIndex_mem N hi k i).mp hm
      exact hlt i e he
    · intro k l i hf hmem
      have hm : i ∈ (mapFind N.initialAccountIndex k).getD [] := by simpa [hf] using hmem
      obtain ⟨e, _, he, _⟩ := (initialAccountIndex_mem N hi k i).mp hm
      exact hlt i e he
    · intro k l i hf hmem
      have hm : i ∈ (mapFind N.profitAccountIndex k).getD [] := by simpa [hf] using hmem
      obtain ⟨e, _, he, _⟩ := (profitAccountIndex_mem N hi k i).mp hm
      exact hlt i e he
    · intro agent
      cases hf : mapFind N.agentIndex agent with
      | none => exact ⟨{ name := "", config := none }, by simp [getAgentEntry, hN, hf]⟩
      | some i =>
        obtain ⟨e, he, _⟩ := agentIndex_sound N hi agent i hf
        exact ⟨e, by simp [getAgentEntry, hN, hf, vectorAt, he]⟩
    · intro account
      exact ⟨_, forEachAccountAgent_indexed self1 N hN hi account⟩

theorem stored_positions_in_range_witness :
    (["CONFIG", "B", "Y"] : List String)[0]? = some "CONFIG" ∧
    onMessage demoParse none listenerA ["CONFIG", "B", "Y"] = ⟨none, listenerAB⟩ ∧
    (∃ N, listenerAB.allAgents = some N ∧
      (∀ n i, mapFind N.agentIndex n = some i → i < N.entries.length) ∧
      (∀ (k : AccountKey) l i, mapFind N.accountIndex k = some l → i ∈ l →
        i < N.entries.length) ∧
      (∀ (k : AccountKey) l i, mapFind N.initialAccountIndex k = some l → i ∈ l →
        i < N.entries.length) ∧
      (∀ (k : AccountKey) l i, mapFind N.profitAccountIndex k = some l → i ∈ l →
        i < N.entries.length) ∧
      (∀ agent, ∃ e, getAgentEntry listenerAB agent = .ok e) ∧
      (∀ account, ∃ visited, forEachAccountAgent listenerAB account = .ok visited)) :=
  ⟨rfl, by decide,
    stored_positions_in_range demoParse listenerA listenerAB ["CONFIG", "B", "Y"] rfl
      (by decide)⟩

end RTBKIT
